import Mathlib

/-!
Verification of the paginated extraction-and-load pipeline.

Shallow embedding of the pagination, normalization and load logic of
`src/elt/CMS_API_Extract_Load_Raw.py` and `src/notebooks/web_scrape.py`:

* the CMS pagination loop `extract_cms_readmission_data` (offset/limit loop,
  optional reported `count`, break on empty page, break when the accumulated
  length reaches the reported total, break on non-200 status or on a caught
  exception — including the `TypeError` raised by `len(all_data) >= None`
  when no `count` was ever reported);
* the Socrata pagination loop `extract_ny_hospital_infections_data`
  (no reported total; break on empty page or on a page shorter than `limit`);
* `load_to_postgres_raw` (early return on an empty frame, otherwise a
  full-replace `to_sql` followed by a `SELECT COUNT(*)` integrity check);
* the module-level load block (data load plus one extraction-metadata row,
  both executed only when the extracted frame is non-empty);
* `process_nested_dicts` (per-column `json.dumps` of dict/list cells) together
  with a verified model of Python's `json.dumps` (default separators,
  `ensure_ascii=True`) and an inverse `json.loads`-style parser.

Machine integers do not overflow in these scripts (Python ints are unbounded),
so counters are `Nat`/`Int`.  Timestamps (`datetime.now()`) carry no logical
content for the claims and are omitted from the records.
-/

/-! ## Source Client responses

One HTTP round trip, as seen by the extraction loops: a 200 response with a
parsed JSON body (for the CMS API an optional `count` plus a `results` array,
for the Socrata API just the array), a non-200 status, or a raised
`requests` exception. -/

inductive ApiResponse (ρ : Type) where
  | success (count : Option Nat) (results : List ρ)
  | httpError (code : Nat)
  | requestExn
deriving DecidableEq, Repr

/-- Why the `while True` loop in the extractor stopped (one `break` each). -/
inductive StopCause where
  /-- `len(all_data) >= total_records` with a known total: "All records fetched!" -/
  | allFetched
  /-- empty page: "No more results found." -/
  | noMoreResults
  /-- `len(all_data) >= total_records` raised `TypeError` because
      `total_records` was still `None`; caught by `except Exception` → break. -/
  | typeErrorCaught
  /-- non-200 status code → break. -/
  | httpErrorStop
  /-- `requests.get` (or `response.json()`) raised → caught → break. -/
  | exnStop
deriving DecidableEq, Repr

/-- Loop state of `extract_cms_readmission_data`:
`all_data`, `offset`, `total_records` (`None` until a `count` key is seen). -/
structure CmsState (ρ : Type) where
  all_data : List ρ
  offset : Nat
  total_records : Option Nat
deriving DecidableEq, Repr

/-- Loop state of `extract_ny_hospital_infections_data`: no total is ever
reported by the Socrata endpoint, so only `all_data` and `offset`. -/
structure ScrapeState (ρ : Type) where
  all_data : List ρ
  offset : Nat
deriving DecidableEq, Repr

/-- `if total_records is None and "count" in data: total_records = data.get("count")`:
the stored total is set from the response's `count` key (absent key modelled as
`none`) only while it is still `None`. -/
def updateTotal (old count : Option Nat) : Option Nat :=
  match old with
  | Option.none => count
  | some t => some t

/-- One iteration of the `while True` body of `extract_cms_readmission_data`
(src/elt/CMS_API_Extract_Load_Raw.py, lines 67–114).  Returns the successor
state, `none` when the loop continues (`HAS_MORE`) or the `break` cause, and
the list of records merged into the accumulator by this iteration.

Order of operations follows the source: on a 200 response the `count` key is
read first (only while `total_records is None`), then the `results` array is
tested; a non-empty page is extended into `all_data` and `offset` is advanced
*before* the `len(all_data) >= total_records` comparison, so records of the
page are retained even when that comparison raises `TypeError`
(`total_records` still `None`), which the bare `except` turns into a break. -/
def cmsStep (limit : Nat) (resp : ApiResponse ρ) (s : CmsState ρ) :
    CmsState ρ × Option StopCause × List ρ :=
  match resp with
  | .success count results =>
    let total' : Option Nat := updateTotal s.total_records count
    if results.isEmpty then
      ({ s with total_records := total' }, some StopCause.noMoreResults, [])
    else
      let all' := s.all_data ++ results
      let s' : CmsState ρ :=
        { all_data := all', offset := s.offset + limit, total_records := total' }
      match total' with
      | some t =>
        if t ≤ all'.length then (s', some StopCause.allFetched, results)
        else (s', Option.none, results)
      | Option.none => (s', some StopCause.typeErrorCaught, results)
  | .httpError _ => (s, some StopCause.httpErrorStop, [])
  | .requestExn => (s, some StopCause.exnStop, [])

/-- One iteration of the `while True` body of
`extract_ny_hospital_infections_data` (src/notebooks/web_scrape.py,
lines 100–138): extend on a non-empty page, then break when the page was
shorter than `limit` ("All records fetched!"), break on an empty page, a
non-200 status, or a caught exception. -/
def scrapeStep (limit : Nat) (resp : ApiResponse ρ) (s : ScrapeState ρ) :
    ScrapeState ρ × Option StopCause × List ρ :=
  match resp with
  | .success _ data =>
    if data.isEmpty then (s, some StopCause.noMoreResults, [])
    else
      let s' : ScrapeState ρ :=
        { all_data := s.all_data ++ data, offset := s.offset + limit }
      if data.length < limit then (s', some StopCause.allFetched, data)
      else (s', Option.none, data)
  | .httpError _ => (s, some StopCause.httpErrorStop, [])
  | .requestExn => (s, some StopCause.exnStop, [])

/-- Observable outcome of a whole extraction run: final loop state, the cause
of the terminal `break`, the number of `requests.get` calls performed, and the
pages (result lists) that were merged into the accumulator, in arrival order. -/
structure RunResult (σ ρ : Type) where
  final : σ
  cause : StopCause
  fetches : Nat
  pages : List (List ρ)
deriving DecidableEq, Repr

/-- The CMS `while True` loop, driven by a stubbed Source Client mapping the
fetch index to the response of that round trip.  `fuel` bounds the number of
iterations modelled; `none` means the loop had not yet terminated. -/
def cmsRunAux (limit : Nat) (client : Nat → ApiResponse ρ) :
    Nat → Nat → CmsState ρ → Option (RunResult (CmsState ρ) ρ)
  | 0, _, _ => Option.none
  | fuel + 1, k, s =>
    match cmsStep limit (client k) s with
    | (s', some c, merged) =>
      some ⟨s', c, 1, if merged.isEmpty then [] else [merged]⟩
    | (s', Option.none, merged) =>
      (cmsRunAux limit client fuel (k + 1) s').map
        (fun r => ⟨r.final, r.cause, r.fetches + 1, merged :: r.pages⟩)

/-- The Socrata `while True` loop, same driver shape as `cmsRunAux`. -/
def scrapeRunAux (limit : Nat) (client : Nat → ApiResponse ρ) :
    Nat → Nat → ScrapeState ρ → Option (RunResult (ScrapeState ρ) ρ)
  | 0, _, _ => Option.none
  | fuel + 1, k, s =>
    match scrapeStep limit (client k) s with
    | (s', some c, merged) =>
      some ⟨s', c, 1, if merged.isEmpty then [] else [merged]⟩
    | (s', Option.none, merged) =>
      (scrapeRunAux limit client fuel (k + 1) s').map
        (fun r => ⟨r.final, r.cause, r.fetches + 1, merged :: r.pages⟩)

/-- Initial CMS loop state: `all_data = []`, `offset = 0`,
`total_records = None`. -/
def cmsInit : CmsState ρ := ⟨[], 0, Option.none⟩

/-- Initial Socrata loop state. -/
def scrapeInit : ScrapeState ρ := ⟨[], 0⟩

/-- `extract_cms_readmission_data` with its hard-coded `limit = 500`, run
against a stubbed Source Client. -/
def extract_cms_readmission_data (client : Nat → ApiResponse ρ) (fuel : Nat) :
    Option (RunResult (CmsState ρ) ρ) :=
  cmsRunAux 500 client fuel 0 cmsInit

/-- `extract_ny_hospital_infections_data` with its hard-coded `limit = 1000`,
run against a stubbed Source Client. -/
def extract_ny_hospital_infections_data (client : Nat → ApiResponse ρ) (fuel : Nat) :
    Option (RunResult (ScrapeState ρ) ρ) :=
  scrapeRunAux 1000 client fuel 0 scrapeInit

/-- Stub Source Client serving `total` records in offset/limit pages, with the
CMS-style reported `count` on every response: page `k` is the slice
`[k*limit, k*limit + limit)` of the record sequence. -/
def cmsStubClient (total limit : Nat) (k : Nat) : ApiResponse Nat :=
  ApiResponse.success (some total) (((List.range total).drop (k * limit)).take limit)

/-- Stub Source Client serving `total` records in offset/limit pages with no
reported total, as the Socrata endpoint does. -/
def scrapeStubClient (total limit : Nat) (k : Nat) : ApiResponse Nat :=
  ApiResponse.success Option.none (((List.range total).drop (k * limit)).take limit)

/-! ## Sink Writer -/

/-- SQL statements `load_to_postgres_raw` issues against the engine, in order:
the chunked full-replace `to_sql` (recorded with the row count written) and the
`SELECT COUNT(*)` integrity check. -/
inductive SqlOp where
  | toSql (rows : Nat)
  | countQuery
deriving DecidableEq, Repr

/-- `load_to_postgres_raw(df, table_name)` (identical in
src/elt/CMS_API_Extract_Load_Raw.py lines 148–175 and
src/notebooks/web_scrape.py lines 64–91): on an empty frame it prints and
returns before touching the database; otherwise it replaces the destination
table's entire contents with the frame (`if_exists='replace'`) and then reads
back `SELECT COUNT(*)`.  The table is `Option`-valued so that a table that was
never created (`none`) is distinguished from an existing one.  Returns the new
table contents, the count reported by the post-write check (`none` when no
count query ran), and the trace of SQL statements issued.  The surrounding
`try/except` of the source only prints on a database error; the model covers
the write path the claims are about, with the sink accepting the write. -/
def load_to_postgres_raw (df : List ρ) (table : Option (List ρ)) :
    Option (List ρ) × Option Nat × List SqlOp :=
  if df.isEmpty then (table, Option.none, [])
  else (some df, some df.length, [SqlOp.toSql df.length, SqlOp.countQuery])

/-- One row of `raw.extraction_metadata` as built at module level
(`extracted_at` timestamp omitted — it carries no logical content). -/
structure MetaRec where
  source : String
  dataset : String
  rows_extracted : Nat
  extraction_status : String
deriving DecidableEq, Repr

/-- The two destination tables the CMS script writes:
`raw.cms_hospital_readmissions` and `raw.extraction_metadata`. -/
structure SinkState (ρ : Type) where
  dataTable : Option (List ρ)
  metaTable : Option (List MetaRec)
deriving DecidableEq, Repr

/-- The module-level load block of src/elt/CMS_API_Extract_Load_Raw.py
(lines 179–194): only when the extracted frame is non-empty, load it to
`raw.cms_hospital_readmissions`, build the one-row metadata frame with
`extraction_status` hard-coded to `'success'` and `rows_extracted = len(df)`,
and load that frame to `raw.extraction_metadata`; an empty extraction skips
the entire block (both loads) and only prints.  Returns the new sink state and
the metadata row that was built (`none` when the block was skipped). -/
def cmsModuleLoad (df : List ρ) (s : SinkState ρ) : SinkState ρ × Option MetaRec :=
  if df.isEmpty then (s, Option.none)
  else
    let r1 := load_to_postgres_raw df s.dataTable
    let meta : MetaRec :=
      { source := "CMS Hospital Readmissions Reduction Program API"
        dataset := "cms_hospital_readmissions"
        rows_extracted := df.length
        extraction_status := "success" }
    let r2 := load_to_postgres_raw [meta] s.metaTable
    ({ dataTable := r1.1, metaTable := r2.1 }, some meta)

/-! ## Record Normalizer: Python values and `json.dumps`

`process_nested_dicts` feeds dict/list cells to `json.dumps` with default
arguments: item separator `", "`, key separator `": "`, `ensure_ascii=True`
(every char below `0x20` or above `0x7e` is `\uXXXX`-escaped, code points
beyond the BMP as a surrogate pair), `null`/`true`/`false` atoms, and decimal
integer literals.  Cell values are modelled by `PyVal`; Python strings are
lists of unicode scalar values; floats are outside the model. -/

inductive PyVal where
  | pyNone
  | pyBool (b : Bool)
  | pyInt (n : Int)
  | pyStr (s : List Char)
  | pyList (items : List PyVal)
  | pyDict (entries : List (List Char × PyVal))
deriving Repr

/-- Decimal digits of `n`, most significant first (Python `repr` of a
non-negative int). -/
def natDigits (n : Nat) : List Char :=
  if n < 10 then [Char.ofNat (48 + n)]
  else natDigits (n / 10) ++ [Char.ofNat (48 + n % 10)]
decreasing_by exact Nat.div_lt_self (by omega) (by omega)

/-- Python `repr` of an int: optional minus sign, then decimal digits. -/
def intChars (n : Int) : List Char :=
  if n < 0 then '-' :: natDigits (-n).toNat else natDigits n.toNat

/-- Lowercase hex digit, as CPython's `json` encoder emits. -/
def hexDigitChar (n : Nat) : Char :=
  if n < 10 then Char.ofNat (48 + n) else Char.ofNat (87 + n)

/-- Four lowercase hex digits, most significant first (`\uXXXX` payload). -/
def hex4 (n : Nat) : List Char :=
  [hexDigitChar (n / 4096 % 16), hexDigitChar (n / 256 % 16),
   hexDigitChar (n / 16 % 16), hexDigitChar (n % 16)]

/-- `json.dumps` escaping of one string character with `ensure_ascii=True`:
the two-character escapes of CPython's `ESCAPE_DCT`, `\uXXXX` for the other
chars below `0x20` or above `0x7e` (a surrogate pair beyond the BMP), and the
char itself otherwise. -/
def escapeChar (c : Char) : List Char :=
  if c = '"' then ['\\', '"']
  else if c = '\\' then ['\\', '\\']
  else if c = '\n' then ['\\', 'n']
  else if c = '\r' then ['\\', 'r']
  else if c = '\t' then ['\\', 't']
  else if c.toNat = 8 then ['\\', 'b']
  else if c.toNat = 12 then ['\\', 'f']
  else if c.toNat < 32 ∨ 126 < c.toNat then
    if c.toNat < 65536 then '\\' :: 'u' :: hex4 c.toNat
    else
      ('\\' :: 'u' :: hex4 (55296 + (c.toNat - 65536) / 1024)) ++
        ('\\' :: 'u' :: hex4 (56320 + (c.toNat - 65536) % 1024))
  else [c]

/-- `json.dumps` escaping of a whole string body (no surrounding quotes). -/
def escapeStr (s : List Char) : List Char :=
  (s.map escapeChar).flatten

mutual

/-- Python `json.dumps(v)` with default arguments, on the `PyVal` model. -/
def json_dumps : PyVal → List Char
  | PyVal.pyNone => ['n', 'u', 'l', 'l']
  | PyVal.pyBool true => ['t', 'r', 'u', 'e']
  | PyVal.pyBool false => ['f', 'a', 'l', 's', 'e']
  | PyVal.pyInt n => intChars n
  | PyVal.pyStr s => '"' :: (escapeStr s ++ ['"'])
  | PyVal.pyList items => '[' :: (dumpsItems items ++ [']'])
  | PyVal.pyDict entries => '\x7b' :: (dumpsEntries entries ++ ['\x7d'])

/-- Array elements joined by the default item separator `", "`. -/
def dumpsItems : List PyVal → List Char
  | [] => []
  | [x] => json_dumps x
  | x :: y :: rest => json_dumps x ++ (',' :: ' ' :: dumpsItems (y :: rest))

/-- Object entries joined by `", "`, each as `"key": value`. -/
def dumpsEntries : List (List Char × PyVal) → List Char
  | [] => []
  | [(k, v)] => dumpsEntry k v
  | (k, v) :: e :: rest => dumpsEntry k v ++ (',' :: ' ' :: dumpsEntries (e :: rest))

/-- One object entry: quoted escaped key, `": "`, then the value. -/
def dumpsEntry (k : List Char) (v : PyVal) : List Char :=
  '"' :: (escapeStr k ++ ('"' :: ':' :: ' ' :: json_dumps v))

end

/-! ## Inverse of the serialization convention (`json.loads` on the image) -/

/-- Is `c` a decimal digit? -/
def isDigitChar (c : Char) : Bool :=
  48 ≤ c.toNat && c.toNat ≤ 57

/-- Numeric value of a decimal digit char. -/
def digitVal (c : Char) : Nat :=
  c.toNat - 48

/-- Numeric value of a hex digit char (either case), `none` otherwise. -/
def hexVal (c : Char) : Option Nat :=
  if 48 ≤ c.toNat ∧ c.toNat ≤ 57 then some (c.toNat - 48)
  else if 97 ≤ c.toNat ∧ c.toNat ≤ 102 then some (c.toNat - 87)
  else if 65 ≤ c.toNat ∧ c.toNat ≤ 70 then some (c.toNat - 55)
  else Option.none

/-- Value of four hex digit chars, most significant first. -/
def hex4val (a b c d : Char) : Option Nat :=
  match hexVal a, hexVal b, hexVal c, hexVal d with
  | some x1, some x2, some x3, some x4 => some (((x1 * 16 + x2) * 16 + x3) * 16 + x4)
  | _, _, _, _ => Option.none

/-- Greedily consume decimal digits, extending the accumulator `acc`. -/
def parseDigits (acc : Nat) : List Char → Nat × List Char
  | [] => (acc, [])
  | c :: rest =>
    if isDigitChar c then parseDigits (acc * 10 + digitVal c) rest
    else (acc, c :: rest)

/-- Decode one escape sequence (the part after the backslash), undoing
`escapeChar`: the two-character escapes, plain `\uXXXX` payloads, and
surrogate pairs.  Returns the decoded character and the remaining input. -/
def decodeEscape (input : List Char) : Option (Char × List Char) :=
  match input with
  | [] => Option.none
  | e :: rest =>
    if e = '"' then some ('"', rest)
    else if e = '\\' then some ('\\', rest)
    else if e = 'n' then some ('\n', rest)
    else if e = 'r' then some ('\r', rest)
    else if e = 't' then some ('\t', rest)
    else if e = 'b' then some (Char.ofNat 8, rest)
    else if e = 'f' then some (Char.ofNat 12, rest)
    else if e = 'u' then
      match rest with
      | a :: b :: c2 :: d :: rest3 =>
        match hex4val a b c2 d with
        | some h =>
          if 55296 ≤ h ∧ h < 56320 then
            match rest3 with
            | b2 :: u2 :: a2 :: b3 :: c3 :: d2 :: rest4 =>
              if b2 = '\\' ∧ u2 = 'u' then
                match hex4val a2 b3 c3 d2 with
                | some l =>
                  if 56320 ≤ l ∧ l < 57344 then
                    some (Char.ofNat (65536 + (h - 55296) * 1024 + (l - 56320)), rest4)
                  else Option.none
                | Option.none => Option.none
              else Option.none
            | _ => Option.none
          else if 56320 ≤ h ∧ h < 57344 then Option.none
          else some (Char.ofNat h, rest3)
        | Option.none => Option.none
      | _ => Option.none
    else Option.none

/-- Parse a JSON string body after the opening quote: stop at the first
unescaped quote, decode backslash escapes via `decodeEscape`, keep other
characters verbatim.  Returns the decoded characters and the input remaining
after the closing quote.  Every iteration consumes at least one character, so
fuel `input.length + 1` always suffices. -/
def parseStringBody (fuel : Nat) (input : List Char) : Option (List Char × List Char) :=
  match fuel with
  | 0 => Option.none
  | fuel + 1 =>
    match input with
    | [] => Option.none
    | c :: rest =>
      if c = '"' then some ([], rest)
      else if c = '\\' then
        match decodeEscape rest with
        | some (ch, rest2) => (parseStringBody fuel rest2).map (fun p => (ch :: p.1, p.2))
        | Option.none => Option.none
      else (parseStringBody fuel rest).map (fun p => (c :: p.1, p.2))

/-- Classify the head of one JSON value: a fully-parsed atom (`null`,
`true`, `false`, a number, a string, an empty array or an empty object), the
opening of a non-empty array or object, or a syntax error. -/
inductive ValHead where
  | atom (v : PyVal) (rest : List Char)
  | openArr (rest : List Char)
  | openObj (rest : List Char)
  | bad
deriving Repr

/-- Non-recursive head scan of one JSON value, the inverse of the head of
`json_dumps`: atoms are consumed entirely (strings via `parseStringBody`,
numbers via the greedy `parseDigits`), non-empty arrays and objects return
the input after the opening bracket. -/
def scanValHead (input : List Char) : ValHead :=
  match input with
  | [] => ValHead.bad
  | c :: rest =>
    if c = 'n' then
      match rest with
      | 'u' :: 'l' :: 'l' :: r => ValHead.atom PyVal.pyNone r
      | _ => ValHead.bad
    else if c = 't' then
      match rest with
      | 'r' :: 'u' :: 'e' :: r => ValHead.atom (PyVal.pyBool true) r
      | _ => ValHead.bad
    else if c = 'f' then
      match rest with
      | 'a' :: 'l' :: 's' :: 'e' :: r => ValHead.atom (PyVal.pyBool false) r
      | _ => ValHead.bad
    else if c = '"' then
      match parseStringBody (rest.length + 1) rest with
      | some (s, r) => ValHead.atom (PyVal.pyStr s) r
      | Option.none => ValHead.bad
    else if c = '-' then
      match rest with
      | c2 :: rest2 =>
        if isDigitChar c2 then
          let p := parseDigits (digitVal c2) rest2
          ValHead.atom (PyVal.pyInt (-(p.1 : Int))) p.2
        else ValHead.bad
      | [] => ValHead.bad
    else if c = '[' then
      match rest with
      | [] => ValHead.bad
      | c2 :: r2 =>
        if c2 = ']' then ValHead.atom (PyVal.pyList []) r2
        else ValHead.openArr rest
    else if c = '\x7b' then
      match rest with
      | [] => ValHead.bad
      | c2 :: r2 =>
        if c2 = '\x7d' then ValHead.atom (PyVal.pyDict []) r2
        else ValHead.openObj rest
    else if isDigitChar c then
      let p := parseDigits (digitVal c) rest
      ValHead.atom (PyVal.pyInt (p.1 : Nat)) p.2
    else ValHead.bad

/-- What follows one parsed array element or object entry: the closing
bracket, the `", "` separator, or a syntax error. -/
inductive SepScan where
  | close (rest : List Char)
  | sep (rest : List Char)
  | bad
deriving Repr

/-- Dispatch after an array element: `]` closes, `", "` separates. -/
def scanArrSep : List Char → SepScan
  | ']' :: rest => SepScan.close rest
  | ',' :: ' ' :: rest => SepScan.sep rest
  | _ => SepScan.bad

/-- Dispatch after an object entry: the closing brace or `", "`. -/
def scanObjSep : List Char → SepScan
  | '\x7d' :: rest => SepScan.close rest
  | ',' :: ' ' :: rest => SepScan.sep rest
  | _ => SepScan.bad

/-- The `": "` key separator inside an object entry. -/
def scanColonSpace : List Char → Option (List Char)
  | ':' :: ' ' :: rest => some rest
  | _ => Option.none

/-- Which grammar production `parseCore` is parsing. -/
inductive ParseMode where
  | mval
  | mitems
  | mentries
deriving Repr

/-- Result of `parseCore`, one constructor per mode. -/
inductive ParseOut where
  | oval (v : PyVal) (rest : List Char)
  | oitems (xs : List PyVal) (rest : List Char)
  | oentries (es : List (List Char × PyVal)) (rest : List Char)
deriving Repr

/-- Recursive-descent parser: one JSON value (`mval`), the non-empty element
list of an array up to `]` (`mitems`), or the non-empty entry list of an
object up to the closing brace (`mentries`).  `fuel` dominates the nesting
structure (see `pfuel`); every recursive call passes `fuel` decremented. -/
def parseCore (fuel : Nat) (mode : ParseMode) (input : List Char) : Option ParseOut :=
  match fuel with
  | 0 => Option.none
  | fuel + 1 =>
    match mode with
    | ParseMode.mval =>
      match scanValHead input with
      | ValHead.atom v rest => some (ParseOut.oval v rest)
      | ValHead.openArr rest =>
        (match parseCore fuel ParseMode.mitems rest with
         | some (ParseOut.oitems xs r) => some (ParseOut.oval (PyVal.pyList xs) r)
         | _ => Option.none)
      | ValHead.openObj rest =>
        (match parseCore fuel ParseMode.mentries rest with
         | some (ParseOut.oentries es r) => some (ParseOut.oval (PyVal.pyDict es) r)
         | _ => Option.none)
      | ValHead.bad => Option.none
    | ParseMode.mitems =>
      match parseCore fuel ParseMode.mval input with
      | some (ParseOut.oval v r) =>
        (match scanArrSep r with
         | SepScan.close rest => some (ParseOut.oitems [v] rest)
         | SepScan.sep rest =>
           (match parseCore fuel ParseMode.mitems rest with
            | some (ParseOut.oitems xs r2) => some (ParseOut.oitems (v :: xs) r2)
            | _ => Option.none)
         | SepScan.bad => Option.none)
      | _ => Option.none
    | ParseMode.mentries =>
      match input with
      | [] => Option.none
      | c :: rest =>
        if c = '"' then
          match parseStringBody (rest.length + 1) rest with
          | some (k, r1) =>
            (match scanColonSpace r1 with
             | some rest2 =>
               (match parseCore fuel ParseMode.mval rest2 with
                | some (ParseOut.oval v r2) =>
                  (match scanObjSep r2 with
                   | SepScan.close rest3 => some (ParseOut.oentries [(k, v)] rest3)
                   | SepScan.sep rest3 =>
                     (match parseCore fuel ParseMode.mentries rest3 with
                      | some (ParseOut.oentries es r3) =>
                        some (ParseOut.oentries ((k, v) :: es) r3)
                      | _ => Option.none)
                   | SepScan.bad => Option.none)
                | _ => Option.none)
             | Option.none => Option.none)
          | Option.none => Option.none
        else Option.none

/-- Parse one JSON value: `parseCore` in value mode. -/
def parseVal (fuel : Nat) (input : List Char) : Option (PyVal × List Char) :=
  match parseCore fuel ParseMode.mval input with
  | some (ParseOut.oval v r) => some (v, r)
  | _ => Option.none

/-- `json.loads` on the image of `json_dumps`: parse one value and require
the input to be consumed entirely.  The fuel `input.length + 1` dominates
`pfuel` of any value whose serialization is `input`. -/
def json_loads (input : List Char) : Option PyVal :=
  match parseVal (input.length + 1) input with
  | some (v, []) => some v
  | _ => Option.none

/-! ## `process_nested_dicts` -/

/-- `isinstance(x, (dict, list))` on a cell value. -/
def isNested : PyVal → Bool
  | PyVal.pyList _ => true
  | PyVal.pyDict _ => true
  | _ => false

/-- The per-cell lambda of `process_nested_dicts`:
`json.dumps(x) if isinstance(x, (dict, list)) else x`. -/
def convertCell (v : PyVal) : PyVal :=
  if isNested v then PyVal.pyStr (json_dumps v) else v

/-- `process_nested_dicts(df)` (src/notebooks/web_scrape.py, lines 54–60):
for each column, if any cell is a dict or a list, replace every dict/list
cell of that column by its `json.dumps` string; other columns are untouched.
A frame is its list of columns, each a name with its cell values in row
order (all columns of a frame have the same length). -/
def process_nested_dicts (df : List (List Char × List PyVal)) :
    List (List Char × List PyVal) :=
  df.map (fun col =>
    if col.2.any isNested then (col.1, col.2.map convertCell) else col)

/-! ## Fuel measure for the parser -/

mutual

/-- Fuel sufficient for `parseVal` to parse `json_dumps v` (one unit per
`parseVal`/`parseItems`/`parseEntries` call). -/
def pfuel : PyVal → Nat
  | PyVal.pyList [] => 1
  | PyVal.pyList (x :: xs) => 1 + pfuelItems (x :: xs)
  | PyVal.pyDict [] => 1
  | PyVal.pyDict (e :: es) => 1 + pfuelEntries (e :: es)
  | _ => 1

/-- Fuel sufficient for `parseItems` on the serialized element list. -/
def pfuelItems : List PyVal → Nat
  | [] => 0
  | x :: xs => 1 + Nat.max (pfuel x) (pfuelItems xs)

/-- Fuel sufficient for `parseEntries` on the serialized entry list. -/
def pfuelEntries : List (List Char × PyVal) → Nat
  | [] => 0
  | e :: es => 1 + Nat.max (pfuel e.2) (pfuelEntries es)

end

/-! ## Step and runner lemmas -/

theorem cmsStep_emptyPage {ρ : Type} (limit : Nat) (count : Option Nat) (s : CmsState ρ) :
    cmsStep limit (ApiResponse.success count []) s =
      ({ s with total_records := updateTotal s.total_records count },
       some StopCause.noMoreResults, []) := by
  simp [cmsStep]

theorem cmsStep_continue {ρ : Type} (limit : Nat) (count : Option Nat) (results : List ρ)
    (s : CmsState ρ) (t : Nat) (hres : results ≠ [])
    (ht : updateTotal s.total_records count = some t)
    (hlt : (s.all_data ++ results).length < t) :
    cmsStep limit (ApiResponse.success count results) s =
      (⟨s.all_data ++ results, s.offset + limit, some t⟩, Option.none, results) := by
  have hn : ¬ t ≤ (s.all_data ++ results).length := by omega
  simp only [List.length_append] at hn
  simp [cmsStep, ht, hres, hn]

theorem cmsStep_allFetched {ρ : Type} (limit : Nat) (count : Option Nat) (results : List ρ)
    (s : CmsState ρ) (t : Nat) (hres : results ≠ [])
    (ht : updateTotal s.total_records count = some t)
    (hge : t ≤ (s.all_data ++ results).length) :
    cmsStep limit (ApiResponse.success count results) s =
      (⟨s.all_data ++ results, s.offset + limit, some t⟩,
       some StopCause.allFetched, results) := by
  simp only [List.length_append] at hge
  simp [cmsStep, ht, hres, hge]

theorem cmsRunAux_succ_stop {ρ : Type} (limit : Nat) (client : Nat → ApiResponse ρ)
    (fuel k : Nat) (s s' : CmsState ρ) (c : StopCause) (merged : List ρ)
    (h : cmsStep limit (client k) s = (s', some c, merged)) :
    cmsRunAux limit client (fuel + 1) k s =
      some ⟨s', c, 1, if merged.isEmpty then [] else [merged]⟩ := by
  simp only [cmsRunAux]
  rw [h]

theorem cmsRunAux_succ_continue {ρ : Type} (limit : Nat) (client : Nat → ApiResponse ρ)
    (fuel k : Nat) (s s' : CmsState ρ) (merged : List ρ)
    (h : cmsStep limit (client k) s = (s', Option.none, merged)) :
    cmsRunAux limit client (fuel + 1) k s =
      (cmsRunAux limit client fuel (k + 1) s').map
        (fun r => ⟨r.final, r.cause, r.fetches + 1, merged :: r.pages⟩) := by
  simp only [cmsRunAux]
  rw [h]

theorem scrapeStep_emptyPage {ρ : Type} (limit : Nat) (count : Option Nat)
    (s : ScrapeState ρ) :
    scrapeStep limit (ApiResponse.success count []) s =
      (s, some StopCause.noMoreResults, []) := by
  simp [scrapeStep]

theorem scrapeStep_continue {ρ : Type} (limit : Nat) (count : Option Nat) (data : List ρ)
    (s : ScrapeState ρ) (hres : data ≠ []) (hfull : ¬ data.length < limit) :
    scrapeStep limit (ApiResponse.success count data) s =
      (⟨s.all_data ++ data, s.offset + limit⟩, Option.none, data) := by
  simp [scrapeStep, hres, hfull]

theorem scrapeStep_lastPage {ρ : Type} (limit : Nat) (count : Option Nat) (data : List ρ)
    (s : ScrapeState ρ) (hres : data ≠ []) (hshort : data.length < limit) :
    scrapeStep limit (ApiResponse.success count data) s =
      (⟨s.all_data ++ data, s.offset + limit⟩, some StopCause.allFetched, data) := by
  simp [scrapeStep, hres, hshort]

theorem scrapeRunAux_succ_stop {ρ : Type} (limit : Nat) (client : Nat → ApiResponse ρ)
    (fuel k : Nat) (s s' : ScrapeState ρ) (c : StopCause) (merged : List ρ)
    (h : scrapeStep limit (client k) s = (s', some c, merged)) :
    scrapeRunAux limit client (fuel + 1) k s =
      some ⟨s', c, 1, if merged.isEmpty then [] else [merged]⟩ := by
  simp only [scrapeRunAux]
  rw [h]

theorem scrapeRunAux_succ_continue {ρ : Type} (limit : Nat) (client : Nat → ApiResponse ρ)
    (fuel k : Nat) (s s' : ScrapeState ρ) (merged : List ρ)
    (h : scrapeStep limit (client k) s = (s', Option.none, merged)) :
    scrapeRunAux limit client (fuel + 1) k s =
      (scrapeRunAux limit client fuel (k + 1) s').map
        (fun r => ⟨r.final, r.cause, r.fetches + 1, merged :: r.pages⟩) := by
  simp only [scrapeRunAux]
  rw [h]

/-! ## C9: empty frame → `load_to_postgres_raw` is a no-op -/

/-- C9.  For every empty input DataFrame, `load_to_postgres_raw` returns
immediately without issuing any write or count query — the target table keeps
its exact prior contents (and is not created if absent) — and at module level
an empty extraction leaves both the data table and the metadata table
completely unchanged, the whole load block being skipped. -/
theorem c9_load_empty_noop (ρ : Type) :
    (∀ table : Option (List ρ),
      load_to_postgres_raw ([] : List ρ) table = (table, Option.none, [])) ∧
    (∀ s : SinkState ρ, cmsModuleLoad ([] : List ρ) s = (s, Option.none)) := by
  constructor
  · intro table
    simp [load_to_postgres_raw]
  · intro s
    simp [cmsModuleLoad]

/-! ## C4: the Sink Writer is idempotent -/

/-- C4.  Writing the same Dataset Snapshot twice yields the same final table
contents and the same post-write row count on both occasions; for a non-empty
snapshot this is because the write replaces the destination table's entire
prior contents (`if_exists='replace'`), making the result independent of the
prior state. -/
theorem c4_sink_writer_idempotent (ρ : Type) (df : List ρ) (table : Option (List ρ)) :
    (load_to_postgres_raw df (load_to_postgres_raw df table).1).1 =
      (load_to_postgres_raw df table).1 ∧
    (load_to_postgres_raw df (load_to_postgres_raw df table).1).2.1 =
      (load_to_postgres_raw df table).2.1 ∧
    (df ≠ [] →
      (load_to_postgres_raw df table).1 = some df ∧
      (load_to_postgres_raw df table).2.1 = some df.length) := by
  by_cases h : df.isEmpty
  · simp_all [load_to_postgres_raw, List.isEmpty_iff]
  · simp_all [load_to_postgres_raw]

/-- Witness for C4 at a concrete non-empty snapshot. -/
theorem c4_sink_writer_idempotent_witness :
    (load_to_postgres_raw [(1 : Nat)] Option.none).1 = some [1] ∧
    (load_to_postgres_raw [(1 : Nat)] Option.none).2.1 = some [(1 : Nat)].length :=
  (c4_sink_writer_idempotent Nat [1] Option.none).2.2 (by decide)

/-! ## C7: the empty-page signal is authoritative -/

/-- C7.  When a reported total is known and the accumulated count is still
below it, an empty page nevertheless stops the CMS loop at once
(`EXHAUSTED` via "No more results found."), without touching the
accumulator. -/
theorem c7_empty_page_tiebreak {ρ : Type} (limit : Nat) (count : Option Nat)
    (s : CmsState ρ) (t : Nat) (htot : s.total_records = some t)
    (_hlt : s.all_data.length < t) :
    cmsStep limit (ApiResponse.success count []) s =
      (s, some StopCause.noMoreResults, []) := by
  rw [cmsStep_emptyPage]
  have : updateTotal s.total_records count = s.total_records := by
    rw [htot]; rfl
  rw [this]

/-- Witness for C7: total reported as 5, nothing accumulated yet, empty page. -/
theorem c7_empty_page_tiebreak_witness :
    cmsStep 500 (ApiResponse.success (some 5) []) (⟨[], 0, some 5⟩ : CmsState Nat) =
      (⟨[], 0, some 5⟩, some StopCause.noMoreResults, []) :=
  c7_empty_page_tiebreak 500 (some 5) ⟨[], 0, some 5⟩ 5 rfl (by decide)

/-! ## C3: when does the CMS loop continue? -/

theorem cmsStep_typeError {ρ : Type} (limit : Nat) (count : Option Nat) (results : List ρ)
    (s : CmsState ρ) (hres : results ≠ [])
    (ht : updateTotal s.total_records count = Option.none) :
    cmsStep limit (ApiResponse.success count results) s =
      (⟨s.all_data ++ results, s.offset + limit, Option.none⟩,
       some StopCause.typeErrorCaught, results) := by
  simp [cmsStep, ht, hres]

/-- C3 (amended).  The CMS accumulator continues (`HAS_MORE`) on a 200
response iff the page is non-empty *and* a total is known (from the current
or an earlier response) *and* the accumulated count after the merge is still
below it; in particular a non-empty page with an unknown total does *not*
continue — the `len(all_data) >= None` comparison raises a caught `TypeError`
and stops the extraction after merging the page.  The web-scrape accumulator,
which never has a reported total, continues iff the page has at least `limit`
records. -/
theorem c3_amended_has_more (ρ : Type) :
    (∀ (limit : Nat) (count : Option Nat) (results : List ρ) (s : CmsState ρ),
      (cmsStep limit (ApiResponse.success count results) s).2.1 = Option.none ↔
        results ≠ [] ∧ ∃ t, updateTotal s.total_records count = some t ∧
          s.all_data.length + results.length < t) ∧
    (∀ (limit : Nat) (count : Option Nat) (data : List ρ) (s : ScrapeState ρ),
      (scrapeStep limit (ApiResponse.success count data) s).2.1 = Option.none ↔
        data ≠ [] ∧ limit ≤ data.length) := by
  constructor
  · intro limit count results s
    by_cases hres : results = []
    · subst hres
      rw [cmsStep_emptyPage]
      simp
    · cases ht : updateTotal s.total_records count with
      | none =>
        rw [cmsStep_typeError limit count results s hres ht]
        simp
      | some t =>
        by_cases hc : t ≤ (s.all_data ++ results).length
        · rw [cmsStep_allFetched limit count results s t hres ht hc]
          simp only [List.length_append] at hc
          simp
          omega
        · rw [cmsStep_continue limit count results s t hres ht (by omega)]
          simp only [List.length_append] at hc
          simp [hres]
          omega
  · intro limit count data s
    by_cases hres : data = []
    · subst hres
      rw [scrapeStep_emptyPage]
      simp
    · by_cases hs : data.length < limit
      · rw [scrapeStep_lastPage limit count data s hres hs]
        simp
        omega
      · rw [scrapeStep_continue limit count data s hres hs]
        simp [hres]
        omega

/-- Counterexample to C3 as stated: a non-empty page whose response carries no
`count` key (reported total unknown) does *not* put the accumulator into
`HAS_MORE` — the very first such page stops the whole extraction (the caught
`TypeError` from `len(all_data) >= None`), so the run performs exactly one
fetch even though the client would keep returning non-empty pages forever. -/
theorem c3_counterexample :
    (cmsStep 500 (ApiResponse.success Option.none [(0 : Nat)])
        (cmsInit : CmsState Nat)).2.1 = some StopCause.typeErrorCaught ∧
    (extract_cms_readmission_data (fun _ => ApiResponse.success Option.none [(0 : Nat)]) 5).map
      (fun r => (r.cause, r.fetches, r.final.all_data.length)) =
      some (StopCause.typeErrorCaught, 1, 1) := by
  decide

/-! ## C1: an empty run writes no metadata record -/

/-- Counterexample to C1 as stated: with an empty first page (total unknown)
the accumulator does reach `EXHAUSTED` after exactly 1 fetch with 0 records —
but the module-level load block is guarded by `if not df.empty`, so *no*
metadata record is appended: the metadata table is left exactly as it was
(here: never created). -/
theorem c1_counterexample :
    (extract_cms_readmission_data
        (fun _ => ApiResponse.success Option.none ([] : List Nat)) 1).map
      (fun r => (r.cause, r.fetches, r.final.all_data.length)) =
      some (StopCause.noMoreResults, 1, 0) ∧
    cmsModuleLoad ([] : List Nat) ⟨Option.none, Option.none⟩ =
      (⟨Option.none, Option.none⟩, Option.none) := by
  decide

/-- C1 (amended).  After a run whose first page is empty with unknown total,
the accumulator reaches `EXHAUSTED` (cause "No more results found.") after
exactly 1 fetch with 0 records; the Sink Writer then appends *no* Extraction
Metadata Record — the whole load block, data table and metadata table alike,
is skipped for the empty snapshot. -/
theorem c1_amended {ρ : Type} (client : Nat → ApiResponse ρ) (fuel : Nat)
    (hclient : client 0 = ApiResponse.success Option.none [])
    (hfuel : 1 ≤ fuel) :
    extract_cms_readmission_data client fuel =
      some ⟨cmsInit, StopCause.noMoreResults, 1, []⟩ ∧
    ∀ s : SinkState ρ, cmsModuleLoad ([] : List ρ) s = (s, Option.none) := by
  obtain ⟨f, rfl⟩ : ∃ f, fuel = f + 1 := ⟨fuel - 1, by omega⟩
  constructor
  · unfold extract_cms_readmission_data
    rw [cmsRunAux_succ_stop 500 client f 0 cmsInit cmsInit StopCause.noMoreResults []]
    · simp
    · rw [hclient, cmsStep_emptyPage]
      rfl
  · intro s
    simp [cmsModuleLoad]

/-- Witness for C1 (amended) at the concrete empty-page client. -/
theorem c1_amended_witness :
    extract_cms_readmission_data
        (fun _ => ApiResponse.success Option.none ([] : List Nat)) 1 =
      some ⟨cmsInit, StopCause.noMoreResults, 1, []⟩ ∧
    ∀ s : SinkState Nat, cmsModuleLoad ([] : List Nat) s = (s, Option.none) :=
  c1_amended (fun _ => ApiResponse.success Option.none []) 1 rfl (by decide)

/-! ## C2: a failed run's metadata still says "success" -/

/-- Counterexample to C2 as stated: the Source Client fails (HTTP 500) on
page 2 after 1 record was accumulated on page 1.  The extractor indeed
returns the 1 accumulated record without raising — but it returns *only* the
records (no failure flag exists in the code), and the metadata record then
written reports `extraction_status = 'success'`, never "failure". -/
theorem c2_counterexample :
    (extract_cms_readmission_data
        (fun k => if k = 0 then ApiResponse.success (some 1500) [(7 : Nat)]
                  else ApiResponse.httpError 500) 3).map
      (fun r => (r.cause, r.final.all_data.length)) =
      some (StopCause.httpErrorStop, 1) ∧
    (cmsModuleLoad [(7 : Nat)] ⟨Option.none, Option.none⟩).2.map
      MetaRec.extraction_status ≠ some "failure" := by
  decide

/-- C2 (amended).  When the Source Client fails after `n` records were
accumulated, the run stops without raising and its result carries exactly the
accumulated records and the stop cause (callers get no separate failure
flag).  If `n > 0`, the module-level block then writes a metadata record with
`rows_extracted = n` but with `extraction_status` hard-coded to `"success"`
(the script never writes "failure"); if `n = 0` no metadata record is written
at all (see C1). -/
theorem c2_amended {ρ : Type} (client : Nat → ApiResponse ρ) (fuel : Nat)
    (r : RunResult (CmsState ρ) ρ)
    (_hrun : extract_cms_readmission_data client fuel = some r)
    (_hfail : r.cause = StopCause.httpErrorStop ∨ r.cause = StopCause.exnStop)
    (hne : r.final.all_data ≠ []) (s : SinkState ρ) :
    ∃ m : MetaRec,
      cmsModuleLoad r.final.all_data s =
        (⟨some r.final.all_data, some [m]⟩, some m) ∧
      m.rows_extracted = r.final.all_data.length ∧
      m.extraction_status = "success" := by
  refine ⟨{ source := "CMS Hospital Readmissions Reduction Program API"
            dataset := "cms_hospital_readmissions"
            rows_extracted := r.final.all_data.length
            extraction_status := "success" }, ?_, rfl, rfl⟩
  simp [cmsModuleLoad, load_to_postgres_raw, hne]

/-- Witness for C2 (amended): HTTP 500 on page 2 after one record. -/
theorem c2_amended_witness :
    ∃ m : MetaRec,
      cmsModuleLoad [(7 : Nat)] ⟨Option.none, Option.none⟩ =
        (⟨some [7], some [m]⟩, some m) ∧
      m.rows_extracted = [(7 : Nat)].length ∧
      m.extraction_status = "success" :=
  c2_amended
    (fun k => if k = 0 then ApiResponse.success (some 1500) [7]
              else ApiResponse.httpError 500) 3
    ⟨⟨[7], 500, some 1500⟩, StopCause.httpErrorStop, 2, [[7]]⟩
    (by decide) (Or.inl rfl) (by decide) ⟨Option.none, Option.none⟩

/-! ## C8: accumulation only appends, and sums the pages exactly -/

theorem cmsStep_all_data {ρ : Type} (limit : Nat) (resp : ApiResponse ρ) (s : CmsState ρ) :
    (cmsStep limit resp s).1.all_data = s.all_data ++ (cmsStep limit resp s).2.2 := by
  cases resp with
  | success count results =>
    by_cases hres : results = []
    · subst hres
      rw [cmsStep_emptyPage]
      simp
    · cases ht : updateTotal s.total_records count with
      | none =>
        rw [cmsStep_typeError limit count results s hres ht]
      | some t =>
        by_cases hc : t ≤ (s.all_data ++ results).length
        · rw [cmsStep_allFetched limit count results s t hres ht hc]
        · rw [cmsStep_continue limit count results s t hres ht (by omega)]
  | httpError code => simp [cmsStep]
  | requestExn => simp [cmsStep]

theorem scrapeStep_all_data {ρ : Type} (limit : Nat) (resp : ApiResponse ρ)
    (s : ScrapeState ρ) :
    (scrapeStep limit resp s).1.all_data = s.all_data ++ (scrapeStep limit resp s).2.2 := by
  cases resp with
  | success count data =>
    by_cases hres : data = []
    · subst hres
      rw [scrapeStep_emptyPage]
      simp
    · by_cases hs : data.length < limit
      · rw [scrapeStep_lastPage limit count data s hres hs]
      · rw [scrapeStep_continue limit count data s hres hs]
  | httpError code => simp [scrapeStep]
  | requestExn => simp [scrapeStep]

theorem cmsRunAux_pages {ρ : Type} (limit : Nat) (client : Nat → ApiResponse ρ) :
    ∀ (fuel k : Nat) (s : CmsState ρ) (r : RunResult (CmsState ρ) ρ),
      cmsRunAux limit client fuel k s = some r →
      r.final.all_data = s.all_data ++ r.pages.flatten := by
  intro fuel
  induction fuel with
  | zero =>
    intro k s r h
    simp [cmsRunAux] at h
  | succ n ih =>
    intro k s r h
    have hstep := cmsStep_all_data limit (client k) s
    rcases he : cmsStep limit (client k) s with ⟨s', c?, merged⟩
    rw [he] at hstep
    simp only at hstep
    cases c? with
    | some c =>
      rw [cmsRunAux_succ_stop limit client n k s s' c merged he] at h
      cases h
      by_cases hm : merged = []
      · subst hm
        simp [hstep]
      · simp [hm, hstep]
    | none =>
      rw [cmsRunAux_succ_continue limit client n k s s' merged he] at h
      rcases Option.map_eq_some'.mp h with ⟨r', hr', rfl⟩
      have := ih (k + 1) s' r' hr'
      simp only [List.flatten_cons]
      rw [this, hstep, List.append_assoc]

theorem scrapeRunAux_pages {ρ : Type} (limit : Nat) (client : Nat → ApiResponse ρ) :
    ∀ (fuel k : Nat) (s : ScrapeState ρ) (r : RunResult (ScrapeState ρ) ρ),
      scrapeRunAux limit client fuel k s = some r →
      r.final.all_data = s.all_data ++ r.pages.flatten := by
  intro fuel
  induction fuel with
  | zero =>
    intro k s r h
    simp [scrapeRunAux] at h
  | succ n ih =>
    intro k s r h
    have hstep := scrapeStep_all_data limit (client k) s
    rcases he : scrapeStep limit (client k) s with ⟨s', c?, merged⟩
    rw [he] at hstep
    simp only at hstep
    cases c? with
    | some c =>
      rw [scrapeRunAux_succ_stop limit client n k s s' c merged he] at h
      cases h
      by_cases hm : merged = []
      · subst hm
        simp [hstep]
      · simp [hm, hstep]
    | none =>
      rw [scrapeRunAux_succ_continue limit client n k s s' merged he] at h
      rcases Option.map_eq_some'.mp h with ⟨r', hr', rfl⟩
      have := ih (k + 1) s' r' hr'
      simp only [List.flatten_cons]
      rw [this, hstep, List.append_assoc]

/-- C8.  During accumulation the snapshot only grows: every iteration leaves
the previous `all_data` as a prefix (it appends exactly the records it merged,
so the length is non-decreasing), and at the end of any terminating run — in
either extractor — the final record sequence is the initial one followed by
the concatenation of the merged pages, hence the final record count equals
the sum of the per-page record counts actually received: nothing is dropped
or duplicated across page boundaries. -/
theorem c8_accumulation_invariant (ρ : Type) :
    (∀ (limit : Nat) (resp : ApiResponse ρ) (s : CmsState ρ),
      (cmsStep limit resp s).1.all_data = s.all_data ++ (cmsStep limit resp s).2.2 ∧
      s.all_data.length ≤ (cmsStep limit resp s).1.all_data.length) ∧
    (∀ (limit : Nat) (resp : ApiResponse ρ) (s : ScrapeState ρ),
      (scrapeStep limit resp s).1.all_data = s.all_data ++ (scrapeStep limit resp s).2.2 ∧
      s.all_data.length ≤ (scrapeStep limit resp s).1.all_data.length) ∧
    (∀ (limit : Nat) (client : Nat → ApiResponse ρ) (fuel k : Nat)
        (s : CmsState ρ) (r : RunResult (CmsState ρ) ρ),
      cmsRunAux limit client fuel k s = some r →
      r.final.all_data = s.all_data ++ r.pages.flatten ∧
      r.final.all_data.length = s.all_data.length + (r.pages.map List.length).sum) ∧
    (∀ (limit : Nat) (client : Nat → ApiResponse ρ) (fuel k : Nat)
        (s : ScrapeState ρ) (r : RunResult (ScrapeState ρ) ρ),
      scrapeRunAux limit client fuel k s = some r →
      r.final.all_data = s.all_data ++ r.pages.flatten ∧
      r.final.all_data.length = s.all_data.length + (r.pages.map List.length).sum) := by
  refine ⟨?_, ?_, ?_, ?_⟩
  · intro limit resp s
    refine ⟨cmsStep_all_data limit resp s, ?_⟩
    rw [cmsStep_all_data limit resp s]
    simp
  · intro limit resp s
    refine ⟨scrapeStep_all_data limit resp s, ?_⟩
    rw [scrapeStep_all_data limit resp s]
    simp
  · intro limit client fuel k s r h
    refine ⟨cmsRunAux_pages limit client fuel k s r h, ?_⟩
    rw [cmsRunAux_pages limit client fuel k s r h]
    simp [List.length_flatten]
  · intro limit client fuel k s r h
    refine ⟨scrapeRunAux_pages limit client fuel k s r h, ?_⟩
    rw [scrapeRunAux_pages limit client fuel k s r h]
    simp [List.length_flatten]

/-- Witness for C8 on a concrete three-page run (pages of 2, 2 and 1 records). -/
theorem c8_accumulation_invariant_witness :
    (⟨⟨[0, 1, 2, 3, 4], 6, some 5⟩, StopCause.allFetched, 3,
        [[0, 1], [2, 3], [4]]⟩ : RunResult (CmsState Nat) Nat).final.all_data =
      ([] : List Nat) ++ [[0, 1], [2, 3], [4]].flatten ∧
    (⟨⟨[0, 1, 2, 3, 4], 6, some 5⟩, StopCause.allFetched, 3,
        [[0, 1], [2, 3], [4]]⟩ : RunResult (CmsState Nat) Nat).final.all_data.length =
      ([] : List Nat).length + ([[0, 1], [2, 3], [4]].map List.length).sum :=
  (c8_accumulation_invariant Nat).2.2.1 2 (cmsStubClient 5 2) 3 0 cmsInit
    ⟨⟨[0, 1, 2, 3, 4], 6, some 5⟩, StopCause.allFetched, 3, [[0, 1], [2, 3], [4]]⟩
    (by decide)

/-! ## C5: pagination terminates within `ceil(total/limit) + 1` fetches -/

theorem stub_page_length (total limit k : Nat) :
    (((List.range total).drop (k * limit)).take limit).length =
      min limit (total - k * limit) := by
  simp

theorem cms_stub_terminates (total limit : Nat) (hl : 0 < limit) :
    ∀ (fuel k : Nat) (s : CmsState Nat),
      s.all_data.length = k * limit →
      k * limit < total →
      (s.total_records = some total ∨ s.total_records = Option.none) →
      total - k * limit ≤ fuel * limit →
      ∃ r, cmsRunAux limit (cmsStubClient total limit) fuel k s = some r ∧
        r.cause = StopCause.allFetched ∧
        r.final.all_data.length = total ∧
        r.fetches ≤ fuel := by
  intro fuel
  induction fuel with
  | zero =>
    intro k s h1 h2 h3 h4
    simp at h4
    omega
  | succ n ih =>
    intro k s h1 h2 h3 h4
    set pg := ((List.range total).drop (k * limit)).take limit with hpg
    have hplen : pg.length = min limit (total - k * limit) := stub_page_length total limit k
    have hpne : pg ≠ [] := by
      intro hnil
      rw [hnil] at hplen
      simp at hplen
      omega
    have ht : updateTotal s.total_records (some total) = some total := by
      rcases h3 with h3 | h3 <;> simp [updateTotal, h3]
    have hstub : cmsStubClient total limit k = ApiResponse.success (some total) pg := rfl
    have hpgE : pg.isEmpty = false := by
      simp [List.isEmpty_iff, hpne]
    by_cases hlast : total - k * limit ≤ limit
    · -- final page: the merge reaches the total and the loop stops
      have hplen' : pg.length = total - k * limit := by rw [hplen]; omega
      have hge : total ≤ (s.all_data ++ pg).length := by
        simp only [List.length_append, h1, hplen']
        omega
      have hstep := cmsStep_allFetched limit (some total) pg s total hpne ht hge
      rw [← hstub] at hstep
      refine ⟨⟨⟨s.all_data ++ pg, s.offset + limit, some total⟩,
          StopCause.allFetched, 1, [pg]⟩, ?_, rfl, ?_, ?_⟩
      · rw [cmsRunAux_succ_stop limit (cmsStubClient total limit) n k s _
          StopCause.allFetched pg hstep, hpgE]
        rfl
      · show (s.all_data ++ pg).length = total
        simp only [List.length_append, h1, hplen']
        omega
      · show (1 : Nat) ≤ n + 1
        omega
    · -- full page: merge and continue with the next offset
      have hplen' : pg.length = limit := by rw [hplen]; omega
      have hlt : (s.all_data ++ pg).length < total := by
        simp only [List.length_append, h1, hplen']
        omega
      have hstep := cmsStep_continue limit (some total) pg s total hpne ht hlt
      rw [← hstub] at hstep
      have hmul : (k + 1) * limit = k * limit + limit := by ring
      have hmuln : (n + 1) * limit = n * limit + limit := by ring
      obtain ⟨r', hr', hc', hlen', hf'⟩ :=
        ih (k + 1) ⟨s.all_data ++ pg, s.offset + limit, some total⟩
          (by simp only [List.length_append, h1, hplen']; omega)
          (by omega)
          (Or.inl rfl)
          (by omega)
      refine ⟨⟨r'.final, r'.cause, r'.fetches + 1, pg :: r'.pages⟩, ?_, hc', hlen', ?_⟩
      · rw [cmsRunAux_succ_continue limit (cmsStubClient total limit) n k s _ pg hstep, hr']
        rfl
      · show r'.fetches + 1 ≤ n + 1
        omega

theorem scrape_stub_terminates (total limit : Nat) (hl : 0 < limit) :
    ∀ (fuel k : Nat) (s : ScrapeState Nat),
      s.all_data.length = k * limit →
      k * limit ≤ total →
      total - k * limit < fuel * limit →
      ∃ r, scrapeRunAux limit (scrapeStubClient total limit) fuel k s = some r ∧
        (r.cause = StopCause.allFetched ∨ r.cause = StopCause.noMoreResults) ∧
        r.final.all_data.length = total ∧
        r.fetches ≤ fuel := by
  intro fuel
  induction fuel with
  | zero =>
    intro k s h1 h2 h4
    simp at h4
  | succ n ih =>
    intro k s h1 h2 h4
    set pg := ((List.range total).drop (k * limit)).take limit with hpg
    have hplen : pg.length = min limit (total - k * limit) := stub_page_length total limit k
    have hstub : scrapeStubClient total limit k = ApiResponse.success Option.none pg := rfl
    by_cases hdone : k * limit = total
    · -- no records left: the stub returns an empty page
      have hnil : pg = [] := by
        apply List.length_eq_zero.mp
        rw [hplen]
        omega
      have hstep := scrapeStep_emptyPage (ρ := Nat) limit Option.none s
      rw [← hnil, ← hstub] at hstep
      refine ⟨⟨s, StopCause.noMoreResults, 1, []⟩, ?_, Or.inr rfl, ?_, ?_⟩
      · rw [scrapeRunAux_succ_stop limit (scrapeStubClient total limit) n k s s
          StopCause.noMoreResults pg hstep]
        rw [hnil]
        rfl
      · show s.all_data.length = total
        omega
      · show (1 : Nat) ≤ n + 1
        omega
    · have hrem : 0 < total - k * limit := by omega
      have hpne : pg ≠ [] := by
        intro hnil
        rw [hnil] at hplen
        simp at hplen
        omega
      have hpgE : pg.isEmpty = false := by
        simp [List.isEmpty_iff, hpne]
      by_cases hlast : total - k * limit < limit
      · -- short page: merge, then break on `len(data) < limit`
        have hplen' : pg.length = total - k * limit := by rw [hplen]; omega
        have hshort : pg.length < limit := by omega
        have hstep := scrapeStep_lastPage limit Option.none pg s hpne hshort
        rw [← hstub] at hstep
        refine ⟨⟨⟨s.all_data ++ pg, s.offset + limit⟩,
            StopCause.allFetched, 1, [pg]⟩, ?_, Or.inl rfl, ?_, ?_⟩
        · rw [scrapeRunAux_succ_stop limit (scrapeStubClient total limit) n k s _
            StopCause.allFetched pg hstep, hpgE]
          rfl
        · show (s.all_data ++ pg).length = total
          simp only [List.length_append, h1, hplen']
          omega
        · show (1 : Nat) ≤ n + 1
          omega
      · -- full page: merge and continue
        have hplen' : pg.length = limit := by rw [hplen]; omega
        have hfull : ¬ pg.length < limit := by omega
        have hstep := scrapeStep_continue limit Option.none pg s hpne hfull
        rw [← hstub] at hstep
        have hmul : (k + 1) * limit = k * limit + limit := by ring
        have hmuln : (n + 1) * limit = n * limit + limit := by ring
        obtain ⟨r', hr', hc', hlen', hf'⟩ :=
          ih (k + 1) ⟨s.all_data ++ pg, s.offset + limit⟩
            (by simp only [List.length_append, h1, hplen']; omega)
            (by omega)
            (by omega)
        refine ⟨⟨r'.final, r'.cause, r'.fetches + 1, pg :: r'.pages⟩, ?_, hc', hlen', ?_⟩
        · rw [scrapeRunAux_succ_continue limit (scrapeStubClient total limit) n k s _ pg hstep,
            hr']
          rfl
        · show r'.fetches + 1 ≤ n + 1
          omega

/-- C5.  Against a stubbed Source Client that serves `total` records in
offset/limit pages (sizes decreasing down to an empty page), both extraction
loops reach `EXHAUSTED` — either "All records fetched!" or "No more results
found." — within `ceil(total/limit) + 1` fetches (that much fuel suffices for
the loop to have terminated, and the fetch count stays within the bound),
having accumulated exactly `total` records. -/
theorem c5_pagination_terminates (total limit : Nat) (hl : 0 < limit) :
    (∃ r, cmsRunAux limit (cmsStubClient total limit)
        ((total + limit - 1) / limit + 1) 0 cmsInit = some r ∧
      (r.cause = StopCause.allFetched ∨ r.cause = StopCause.noMoreResults) ∧
      r.fetches ≤ (total + limit - 1) / limit + 1 ∧
      r.final.all_data.length = total) ∧
    (∃ r, scrapeRunAux limit (scrapeStubClient total limit)
        ((total + limit - 1) / limit + 1) 0 scrapeInit = some r ∧
      (r.cause = StopCause.allFetched ∨ r.cause = StopCause.noMoreResults) ∧
      r.fetches ≤ (total + limit - 1) / limit + 1 ∧
      r.final.all_data.length = total) := by
  have hkey : total ≤ ((total + limit - 1) / limit) * limit := by
    have hq := Nat.div_add_mod (total + limit - 1) limit
    have hm : (total + limit - 1) % limit < limit := Nat.mod_lt _ hl
    have hc : limit * ((total + limit - 1) / limit) =
        ((total + limit - 1) / limit) * limit := Nat.mul_comm _ _
    omega
  have hmul : ((total + limit - 1) / limit + 1) * limit =
      ((total + limit - 1) / limit) * limit + limit := by ring
  constructor
  · by_cases h0 : total = 0
    · -- empty dataset: the very first page is already empty
      subst h0
      have hstep := cmsStep_emptyPage (ρ := Nat) limit (some 0) (cmsInit : CmsState Nat)
      have hstub : cmsStubClient 0 limit 0 = ApiResponse.success (some 0) [] := by
        simp [cmsStubClient]
      rw [← hstub] at hstep
      refine ⟨⟨⟨[], 0, some 0⟩, StopCause.noMoreResults, 1, []⟩, ?_, Or.inr rfl, ?_, rfl⟩
      · rw [cmsRunAux_succ_stop limit (cmsStubClient 0 limit) _ 0 cmsInit _
          StopCause.noMoreResults [] hstep]
        rfl
      · show (1 : Nat) ≤ (0 + limit - 1) / limit + 1
        exact Nat.succ_le_succ (Nat.zero_le _)
    · obtain ⟨r, hr, hc, hlen, hf⟩ :=
        cms_stub_terminates total limit hl ((total + limit - 1) / limit + 1) 0 cmsInit
          (by simp [cmsInit]) (by omega) (Or.inr rfl) (by omega)
      exact ⟨r, hr, Or.inl hc, hf, hlen⟩
  · obtain ⟨r, hr, hc, hlen, hf⟩ :=
      scrape_stub_terminates total limit hl ((total + limit - 1) / limit + 1) 0 scrapeInit
        (by simp [scrapeInit]) (by omega) (by omega)
    exact ⟨r, hr, hc, hf, hlen⟩

/-- Witness for C5 at `total = 120`, `limit = 50` (the spec's own scenario:
pages of 50, 50, 20). -/
theorem c5_pagination_terminates_witness :
    (∃ r, cmsRunAux 50 (cmsStubClient 120 50)
        ((120 + 50 - 1) / 50 + 1) 0 cmsInit = some r ∧
      (r.cause = StopCause.allFetched ∨ r.cause = StopCause.noMoreResults) ∧
      r.fetches ≤ (120 + 50 - 1) / 50 + 1 ∧
      r.final.all_data.length = 120) ∧
    (∃ r, scrapeRunAux 50 (scrapeStubClient 120 50)
        ((120 + 50 - 1) / 50 + 1) 0 scrapeInit = some r ∧
      (r.cause = StopCause.allFetched ∨ r.cause = StopCause.noMoreResults) ∧
      r.fetches ≤ (120 + 50 - 1) / 50 + 1 ∧
      r.final.all_data.length = 120) :=
  c5_pagination_terminates 120 50 (by decide)

/-- The continuation after a serialized integer must not start with another
digit, or the greedy digit scanner would run past the value boundary; every
continuation `json_dumps` produces (`", "`, `"]"`, a closing brace, or end of
input) satisfies this. -/
def headNotDigit : List Char → Prop
  | [] => True
  | c :: _ => isDigitChar c = false

/-! ## Round-trip lemmas: characters and digits -/

theorem char_toNat_valid (c : Char) :
    c.toNat < 55296 ∨ (57343 < c.toNat ∧ c.toNat < 1114112) :=
  c.valid

theorem toNat_ofNat_valid (m : Nat) (h : Nat.isValidChar m) :
    (Char.ofNat m).toNat = m := by
  rw [Char.ofNat, dif_pos h]
  simp [Char.ofNatAux, Char.toNat, UInt32.toNat]

theorem toNat_ofNat_small (m : Nat) (h : m < 55296) :
    (Char.ofNat m).toNat = m :=
  toNat_ofNat_valid m (Or.inl h)

theorem digit_char_spec (n : Nat) (h : n < 10) :
    isDigitChar (Char.ofNat (48 + n)) = true ∧ digitVal (Char.ofNat (48 + n)) = n := by
  have ht : (Char.ofNat (48 + n)).toNat = 48 + n := toNat_ofNat_small _ (by omega)
  constructor
  · simp [isDigitChar, ht]
    omega
  · simp [digitVal, ht]

theorem parseDigits_stop (acc : Nat) (rest : List Char) (h : headNotDigit rest) :
    parseDigits acc rest = (acc, rest) := by
  cases rest with
  | nil => rfl
  | cons c cs =>
    simp only [headNotDigit] at h
    simp [parseDigits, h]

theorem natDigits_cons (n : Nat) :
    ∃ c cs, natDigits n = c :: cs ∧ isDigitChar c = true := by
  induction n using Nat.strong_induction_on with
  | _ n ih =>
    by_cases h : n < 10
    · exact ⟨Char.ofNat (48 + n), [], by rw [natDigits]; simp [h],
        (digit_char_spec n h).1⟩
    · obtain ⟨c, cs, hc, hd⟩ := ih (n / 10) (Nat.div_lt_self (by omega) (by omega))
      refine ⟨c, cs ++ [Char.ofNat (48 + n % 10)], ?_, hd⟩
      rw [natDigits]
      simp [h, hc]

theorem parseDigits_natDigits : ∀ (n acc : Nat) (rest : List Char),
    parseDigits acc (natDigits n ++ rest) =
      parseDigits (acc * 10 ^ (natDigits n).length + n) rest := by
  intro n
  induction n using Nat.strong_induction_on with
  | _ n ih =>
    intro acc rest
    by_cases h : n < 10
    · rw [natDigits]
      simp only [h, if_true]
      rw [List.singleton_append, parseDigits]
      simp [(digit_char_spec n h).1, (digit_char_spec n h).2]
    · rw [natDigits]
      simp only [h, if_false]
      rw [List.append_assoc, List.singleton_append,
        ih (n / 10) (Nat.div_lt_self (by omega) (by omega)) acc]
      rw [parseDigits]
      simp only [(digit_char_spec (n % 10) (by omega)).1, if_true,
        (digit_char_spec (n % 10) (by omega)).2]
      have hdm : 10 * (n / 10) + n % 10 = n := Nat.div_add_mod n 10
      have hlen : (natDigits (n / 10) ++ [Char.ofNat (48 + n % 10)]).length =
          (natDigits (n / 10)).length + 1 := by simp
      rw [hlen]
      have hpow : (10 : Nat) ^ ((natDigits (n / 10)).length + 1) =
          10 ^ (natDigits (n / 10)).length * 10 := pow_succ 10 _
      have : (acc * 10 ^ (natDigits (n / 10)).length + n / 10) * 10 + n % 10 =
          acc * (10 ^ (natDigits (n / 10)).length * 10) + (10 * (n / 10) + n % 10) := by
        ring
      rw [this, hdm, hpow]

theorem parseDigits_natDigits_full (n : Nat) (rest : List Char)
    (h : headNotDigit rest) :
    parseDigits 0 (natDigits n ++ rest) = (n, rest) := by
  rw [parseDigits_natDigits, Nat.zero_mul, Nat.zero_add, parseDigits_stop n rest h]

/-! ## Round-trip lemmas: string escaping -/

theorem hexVal_hexDigitChar (k : Nat) (h : k < 16) :
    hexVal (hexDigitChar k) = some k := by
  by_cases h10 : k < 10
  · have ht : (Char.ofNat (48 + k)).toNat = 48 + k := toNat_ofNat_small _ (by omega)
    rw [hexDigitChar, if_pos h10, hexVal, ht, if_pos (by omega)]
    simp
  · have ht : (Char.ofNat (87 + k)).toNat = 87 + k := toNat_ofNat_small _ (by omega)
    rw [hexDigitChar, if_neg h10, hexVal, ht, if_neg (by omega), if_pos (by omega)]
    simp

theorem hex4val_hex4 (m : Nat) (h : m < 65536) :
    hex4val (hexDigitChar (m / 4096 % 16)) (hexDigitChar (m / 256 % 16))
      (hexDigitChar (m / 16 % 16)) (hexDigitChar (m % 16)) = some m := by
  rw [hex4val, hexVal_hexDigitChar _ (by omega), hexVal_hexDigitChar _ (by omega),
    hexVal_hexDigitChar _ (by omega), hexVal_hexDigitChar _ (by omega)]
  exact congrArg some (by omega)

theorem hex4_cons (m : Nat) (tail : List Char) :
    hex4 m ++ tail = hexDigitChar (m / 4096 % 16) :: hexDigitChar (m / 256 % 16) ::
      hexDigitChar (m / 16 % 16) :: hexDigitChar (m % 16) :: tail := by
  simp [hex4]

theorem decodeEscape_u (a b c d : Char) (m : Nat) (X : List Char)
    (hx : hex4val a b c d = some m)
    (h1 : ¬ (55296 ≤ m ∧ m < 56320)) (h2 : ¬ (56320 ≤ m ∧ m < 57344)) :
    decodeEscape ('u' :: a :: b :: c :: d :: X) = some (Char.ofNat m, X) := by
  delta decodeEscape
  dsimp only
  rw [if_neg (by decide), if_neg (by decide), if_neg (by decide), if_neg (by decide),
    if_neg (by decide), if_neg (by decide), if_neg (by decide), if_pos rfl, hx]
  dsimp only
  rw [if_neg h1, if_neg h2]

theorem decodeEscape_u_pair (a b c d a2 b2 c2 d2 : Char) (h l : Nat) (X : List Char)
    (hx : hex4val a b c d = some h) (hhi : 55296 ≤ h ∧ h < 56320)
    (hx2 : hex4val a2 b2 c2 d2 = some l) (hlo : 56320 ≤ l ∧ l < 57344) :
    decodeEscape ('u' :: a :: b :: c :: d :: '\\' :: 'u' :: a2 :: b2 :: c2 :: d2 :: X) =
      some (Char.ofNat (65536 + (h - 55296) * 1024 + (l - 56320)), X) := by
  delta decodeEscape
  dsimp only
  rw [if_neg (by decide), if_neg (by decide), if_neg (by decide), if_neg (by decide),
    if_neg (by decide), if_neg (by decide), if_neg (by decide), if_pos rfl, hx]
  dsimp only
  rw [if_pos hhi]
  rw [if_pos (⟨rfl, rfl⟩ : ('\\' : Char) = '\\' ∧ ('u' : Char) = 'u'), hx2]
  dsimp only
  rw [if_pos hlo]

/-- Every character either needs no escaping (and is not a quote or a
backslash) or escapes to a backslash followed by a payload that
`decodeEscape` decodes back to the character in front of any continuation. -/
theorem decodeEscape_escapeChar (c : Char) (X : List Char) :
    (escapeChar c = [c] ∧ ¬ c = '"' ∧ ¬ c = '\\') ∨
    (∃ payload, escapeChar c = '\\' :: payload ∧
      decodeEscape (payload ++ X) = some (c, X)) := by
  by_cases h1 : c = '"'
  · subst h1
    exact Or.inr ⟨['"'], rfl, rfl⟩
  by_cases h2 : c = '\\'
  · subst h2
    refine Or.inr ⟨['\\'], ?_, rfl⟩
    rw [escapeChar, if_neg (by decide), if_pos rfl]
  by_cases h3 : c = '\n'
  · subst h3
    refine Or.inr ⟨['n'], ?_, rfl⟩
    rw [escapeChar, if_neg (by decide), if_neg (by decide), if_pos rfl]
  by_cases h4 : c = '\r'
  · subst h4
    refine Or.inr ⟨['r'], ?_, rfl⟩
    rw [escapeChar, if_neg (by decide), if_neg (by decide), if_neg (by decide), if_pos rfl]
  by_cases h5 : c = '\t'
  · subst h5
    refine Or.inr ⟨['t'], ?_, rfl⟩
    rw [escapeChar, if_neg (by decide), if_neg (by decide), if_neg (by decide),
      if_neg (by decide), if_pos rfl]
  by_cases h6 : c.toNat = 8
  · refine Or.inr ⟨['b'], ?_, ?_⟩
    · rw [escapeChar, if_neg h1, if_neg h2, if_neg h3, if_neg h4, if_neg h5, if_pos h6]
    · have hc : Char.ofNat 8 = c := by rw [← h6, Char.ofNat_toNat]
      rw [List.singleton_append, show decodeEscape ('b' :: X) = some (Char.ofNat 8, X) from rfl,
        hc]
  by_cases h7 : c.toNat = 12
  · refine Or.inr ⟨['f'], ?_, ?_⟩
    · rw [escapeChar, if_neg h1, if_neg h2, if_neg h3, if_neg h4, if_neg h5, if_neg h6,
        if_pos h7]
    · have hc : Char.ofNat 12 = c := by rw [← h7, Char.ofNat_toNat]
      rw [List.singleton_append, show decodeEscape ('f' :: X) = some (Char.ofNat 12, X) from rfl,
        hc]
  by_cases h8 : c.toNat < 32 ∨ 126 < c.toNat
  case neg =>
    refine Or.inl ⟨?_, h1, h2⟩
    rw [escapeChar, if_neg h1, if_neg h2, if_neg h3, if_neg h4, if_neg h5, if_neg h6,
      if_neg h7, if_neg h8]
  case pos =>
    have hval := char_toNat_valid c
    by_cases h9 : c.toNat < 65536
    · -- one `\uXXXX` escape; a valid scalar below 65536 is never a surrogate
      refine Or.inr ⟨'u' :: hex4 c.toNat, ?_, ?_⟩
      · rw [escapeChar, if_neg h1, if_neg h2, if_neg h3, if_neg h4, if_neg h5, if_neg h6,
          if_neg h7, if_pos h8, if_pos h9]
      · rw [List.cons_append, hex4_cons,
          decodeEscape_u _ _ _ _ c.toNat X (hex4val_hex4 c.toNat h9)
            (by omega) (by omega), Char.ofNat_toNat]
    · -- astral plane: surrogate pair
      refine Or.inr ⟨('u' :: hex4 (55296 + (c.toNat - 65536) / 1024)) ++
        ('\\' :: 'u' :: hex4 (56320 + (c.toNat - 65536) % 1024)), ?_, ?_⟩
      · rw [escapeChar, if_neg h1, if_neg h2, if_neg h3, if_neg h4, if_neg h5, if_neg h6,
          if_neg h7, if_pos h8, if_neg h9]
        simp
      · have hhi : 55296 + (c.toNat - 65536) / 1024 < 65536 := by omega
        have hlo : 56320 + (c.toNat - 65536) % 1024 < 65536 := by omega
        simp only [List.append_assoc, List.cons_append, hex4_cons]
        rw [decodeEscape_u_pair _ _ _ _ _ _ _ _
          (55296 + (c.toNat - 65536) / 1024) (56320 + (c.toNat - 65536) % 1024) X
          (hex4val_hex4 _ hhi) (by omega) (hex4val_hex4 _ hlo) (by omega)]
        have hdec : 65536 + (55296 + (c.toNat - 65536) / 1024 - 55296) * 1024 +
            (56320 + (c.toNat - 65536) % 1024 - 56320) = c.toNat := by omega
        rw [hdec, Char.ofNat_toNat]

theorem parseStringBody_quote (fuel : Nat) (X : List Char) :
    parseStringBody (fuel + 1) ('"' :: X) = some ([], X) := by
  rw [parseStringBody.eq_def]
  dsimp only
  rw [if_pos rfl]

theorem parseStringBody_escapeStep (fuel : Nat) (rest rest2 : List Char) (ch : Char)
    (hd : decodeEscape rest = some (ch, rest2)) :
    parseStringBody (fuel + 1) ('\\' :: rest) =
      (parseStringBody fuel rest2).map (fun p => (ch :: p.1, p.2)) := by
  rw [parseStringBody.eq_def]
  dsimp only
  rw [if_neg (by decide), if_pos rfl, hd]

theorem parseStringBody_plain (fuel : Nat) (c : Char) (rest : List Char)
    (h1 : ¬ c = '"') (h2 : ¬ c = '\\') :
    parseStringBody (fuel + 1) (c :: rest) =
      (parseStringBody fuel rest).map (fun p => (c :: p.1, p.2)) := by
  rw [parseStringBody.eq_def]
  dsimp only
  rw [if_neg h1, if_neg h2]

/-- Round trip for string bodies: parsing the escaped form of `s` followed by
the closing quote recovers `s` and the continuation, for any fuel exceeding
the number of characters of `s`. -/
theorem parseStringBody_escapeStr : ∀ (s rest : List Char) (fuel : Nat),
    s.length < fuel →
    parseStringBody fuel (escapeStr s ++ '"' :: rest) = some (s, rest) := by
  intro s
  induction s with
  | nil =>
    intro rest fuel hf
    obtain ⟨f, rfl⟩ : ∃ f, fuel = f + 1 := ⟨fuel - 1, by omega⟩
    rw [show escapeStr [] ++ '"' :: rest = '"' :: rest by simp [escapeStr]]
    exact parseStringBody_quote f rest
  | cons c s ih =>
    intro rest fuel hf
    obtain ⟨f, rfl⟩ : ∃ f, fuel = f + 1 := ⟨fuel - 1, by omega⟩
    have hsplit : escapeStr (c :: s) ++ '"' :: rest =
        escapeChar c ++ (escapeStr s ++ '"' :: rest) := by
      simp [escapeStr]
    rw [hsplit]
    have hlen : s.length < f := by
      simp at hf
      omega
    rcases decodeEscape_escapeChar c (escapeStr s ++ '"' :: rest) with
      ⟨hplain, hq, hb⟩ | ⟨payload, hpay, hdec⟩
    · rw [hplain, List.singleton_append,
        parseStringBody_plain f c _ hq hb, ih rest f hlen]
      rfl
    · rw [hpay, List.cons_append,
        parseStringBody_escapeStep f _ _ c hdec, ih rest f hlen]
      rfl

/-! ## Round-trip lemmas: heads of serialized values -/

theorem escapeStr_cons (c : Char) (s : List Char) :
    escapeStr (c :: s) = escapeChar c ++ escapeStr s := by
  simp [escapeStr]

theorem one_le_length_escapeChar (c : Char) : 1 ≤ (escapeChar c).length := by
  rw [escapeChar]
  split_ifs <;> simp [hex4]

theorem length_le_length_escapeStr (s : List Char) : s.length ≤ (escapeStr s).length := by
  induction s with
  | nil => simp [escapeStr]
  | cons c s ih =>
    rw [escapeStr_cons]
    have := one_le_length_escapeChar c
    simp only [List.length_append, List.length_cons]
    omega

theorem digitChar_not_special (c : Char) (h : isDigitChar c = true) :
    ¬ c = 'n' ∧ ¬ c = 't' ∧ ¬ c = 'f' ∧ ¬ c = '"' ∧ ¬ c = '-' ∧ ¬ c = '[' ∧
      ¬ c = '\x7b' ∧ ¬ c = ']' := by
  refine ⟨?_, ?_, ?_, ?_, ?_, ?_, ?_, ?_⟩ <;>
    (intro he; subst he; exact absurd h (by decide))

theorem json_dumps_head_ne_rbracket (v : PyVal) :
    ∃ c cs, json_dumps v = c :: cs ∧ ¬ c = ']' := by
  cases v with
  | pyNone => exact ⟨'n', ['u', 'l', 'l'], by rw [json_dumps], by decide⟩
  | pyBool b =>
    cases b with
    | true => exact ⟨'t', ['r', 'u', 'e'], by rw [json_dumps], by decide⟩
    | false => exact ⟨'f', ['a', 'l', 's', 'e'], by rw [json_dumps], by decide⟩
  | pyInt n =>
    by_cases hn : n < 0
    · exact ⟨'-', natDigits (-n).toNat, by rw [json_dumps, intChars, if_pos hn], by decide⟩
    · obtain ⟨c, cs, hc, hd⟩ := natDigits_cons n.toNat
      exact ⟨c, cs, by rw [json_dumps, intChars, if_neg hn, hc],
        (digitChar_not_special c hd).2.2.2.2.2.2.2⟩
  | pyStr s => exact ⟨'"', escapeStr s ++ ['"'], by rw [json_dumps], by decide⟩
  | pyList xs => exact ⟨'[', dumpsItems xs ++ [']'], by rw [json_dumps], by decide⟩
  | pyDict es => exact ⟨'\x7b', dumpsEntries es ++ ['\x7d'], by rw [json_dumps], by decide⟩

theorem scanValHead_null (rest : List Char) :
    scanValHead ('n' :: 'u' :: 'l' :: 'l' :: rest) = ValHead.atom PyVal.pyNone rest := rfl

theorem scanValHead_true (rest : List Char) :
    scanValHead ('t' :: 'r' :: 'u' :: 'e' :: rest) =
      ValHead.atom (PyVal.pyBool true) rest := rfl

theorem scanValHead_false (rest : List Char) :
    scanValHead ('f' :: 'a' :: 'l' :: 's' :: 'e' :: rest) =
      ValHead.atom (PyVal.pyBool false) rest := rfl

theorem scanValHead_str (s rest : List Char) :
    scanValHead ('"' :: (escapeStr s ++ '"' :: rest)) =
      ValHead.atom (PyVal.pyStr s) rest := by
  delta scanValHead
  dsimp only
  rw [if_neg (by decide), if_neg (by decide), if_neg (by decide), if_pos rfl,
    parseStringBody_escapeStr s rest _ (by
      have := length_le_length_escapeStr s
      simp only [List.length_append, List.length_cons]
      omega)]

theorem parseDigits_head (m : Nat) (c : Char) (cs rest : List Char)
    (hnd : natDigits m = c :: cs) (h : headNotDigit rest) :
    parseDigits (digitVal c) (cs ++ rest) = (m, rest) := by
  have h0 := parseDigits_natDigits_full m rest h
  rw [hnd, List.cons_append, parseDigits] at h0
  obtain ⟨d, ds, hd, hdig⟩ := natDigits_cons m
  rw [hnd] at hd
  cases hd
  rw [if_pos hdig] at h0
  simpa using h0

theorem scanValHead_intChars (n : Int) (rest : List Char) (h : headNotDigit rest) :
    scanValHead (intChars n ++ rest) = ValHead.atom (PyVal.pyInt n) rest := by
  by_cases hn : n < 0
  · obtain ⟨c, cs, hc, hd⟩ := natDigits_cons (-n).toNat
    rw [intChars, if_pos hn, hc, List.cons_append, List.cons_append]
    delta scanValHead
    dsimp only
    rw [if_neg (by decide), if_neg (by decide), if_neg (by decide), if_neg (by decide),
      if_pos rfl]
    rw [if_pos hd, parseDigits_head _ _ _ _ hc h]
    have hv : -(((-n).toNat : Nat) : Int) = n := by omega
    rw [hv]
  · obtain ⟨c, cs, hc, hd⟩ := natDigits_cons n.toNat
    obtain ⟨hn1, hn2, hn3, hn4, hn5, hn6, hn7, _⟩ := digitChar_not_special c hd
    rw [intChars, if_neg hn, hc, List.cons_append]
    delta scanValHead
    dsimp only
    rw [if_neg hn1, if_neg hn2, if_neg hn3, if_neg hn4, if_neg hn5, if_neg hn6,
      if_neg hn7, if_pos hd, parseDigits_head _ _ _ _ hc h]
    have hv : ((n.toNat : Nat) : Int) = n := by omega
    rw [hv]

theorem dumpsItems_head (x : PyVal) (xs : List PyVal) (Y : List Char) :
    ∃ c t, dumpsItems (x :: xs) ++ Y = c :: t ∧ ¬ c = ']' := by
  obtain ⟨c, cs, hc, hne⟩ := json_dumps_head_ne_rbracket x
  cases xs with
  | nil => exact ⟨c, cs ++ Y, by rw [dumpsItems, hc]; simp, hne⟩
  | cons y ys =>
    exact ⟨c, cs ++ (',' :: ' ' :: dumpsItems (y :: ys)) ++ Y,
      by rw [dumpsItems, hc]; simp, hne⟩

theorem scanValHead_arr (x : PyVal) (xs : List PyVal) (rest : List Char) :
    scanValHead ('[' :: (dumpsItems (x :: xs) ++ ']' :: rest)) =
      ValHead.openArr (dumpsItems (x :: xs) ++ ']' :: rest) := by
  obtain ⟨c, t, ht, hne⟩ := dumpsItems_head x xs (']' :: rest)
  rw [ht]
  delta scanValHead
  dsimp only
  rw [if_neg (by decide), if_neg (by decide), if_neg (by decide), if_neg (by decide),
    if_neg (by decide), if_pos rfl]
  rw [if_neg hne]

theorem dumpsEntries_head (k : List Char) (v : PyVal) (es : List (List Char × PyVal))
    (Y : List Char) :
    ∃ t, dumpsEntries ((k, v) :: es) ++ Y = '"' :: t := by
  cases es with
  | nil =>
    exact ⟨(escapeStr k ++ ('"' :: ':' :: ' ' :: json_dumps v)) ++ Y,
      by rw [dumpsEntries, dumpsEntry]; simp⟩
  | cons e es' =>
    exact ⟨(escapeStr k ++ ('"' :: ':' :: ' ' :: json_dumps v)) ++
        (',' :: ' ' :: dumpsEntries (e :: es')) ++ Y,
      by rw [dumpsEntries, dumpsEntry]; simp⟩

theorem scanValHead_obj (k : List Char) (v : PyVal) (es : List (List Char × PyVal))
    (rest : List Char) :
    scanValHead ('\x7b' :: (dumpsEntries ((k, v) :: es) ++ '\x7d' :: rest)) =
      ValHead.openObj (dumpsEntries ((k, v) :: es) ++ '\x7d' :: rest) := by
  obtain ⟨t, ht⟩ := dumpsEntries_head k v es ('\x7d' :: rest)
  rw [ht]
  delta scanValHead
  dsimp only
  rw [if_neg (by decide), if_neg (by decide), if_neg (by decide), if_neg (by decide),
    if_neg (by decide), if_neg (by decide), if_pos rfl]
  rw [if_neg (by decide)]

/-! ## Round trip of the full parser -/

theorem one_le_pfuel (v : PyVal) : 1 ≤ pfuel v := by
  cases v with
  | pyList xs => cases xs <;> simp [pfuel]
  | pyDict es => cases es <;> simp [pfuel]
  | pyNone => simp [pfuel]
  | pyBool b => simp [pfuel]
  | pyInt n => simp [pfuel]
  | pyStr s => simp [pfuel]

theorem headNotDigit_rbracket (rest : List Char) : headNotDigit (']' :: rest) := by
  show isDigitChar ']' = false
  decide

theorem headNotDigit_comma (rest : List Char) : headNotDigit (',' :: rest) := by
  show isDigitChar ',' = false
  decide

theorem headNotDigit_rbrace (rest : List Char) : headNotDigit ('\x7d' :: rest) := by
  show isDigitChar '\x7d' = false
  decide

theorem pfuelItems_bound (x : PyVal) (xs : List PyVal) (f : Nat)
    (h : pfuelItems (x :: xs) ≤ f + 1) : pfuel x ≤ f ∧ pfuelItems xs ≤ f := by
  rw [pfuelItems] at h
  have h3 : Nat.max (pfuel x) (pfuelItems xs) ≤ f := by omega
  exact ⟨le_trans (Nat.le_max_left _ _) h3, le_trans (Nat.le_max_right _ _) h3⟩

theorem pfuelEntries_bound (k : List Char) (v : PyVal) (es : List (List Char × PyVal))
    (f : Nat) (h : pfuelEntries ((k, v) :: es) ≤ f + 1) :
    pfuel v ≤ f ∧ pfuelEntries es ≤ f := by
  rw [pfuelEntries] at h
  have h3 : Nat.max (pfuel ((k, v) : List Char × PyVal).2) (pfuelEntries es) ≤ f := by
    omega
  exact ⟨le_trans (Nat.le_max_left _ _) h3, le_trans (Nat.le_max_right _ _) h3⟩

theorem parseCore_dumps : ∀ (fuel : Nat),
    (∀ (v : PyVal) (rest : List Char), pfuel v ≤ fuel → headNotDigit rest →
      parseCore fuel ParseMode.mval (json_dumps v ++ rest) =
        some (ParseOut.oval v rest)) ∧
    (∀ (x : PyVal) (xs : List PyVal) (rest : List Char), pfuelItems (x :: xs) ≤ fuel →
      parseCore fuel ParseMode.mitems (dumpsItems (x :: xs) ++ ']' :: rest) =
        some (ParseOut.oitems (x :: xs) rest)) ∧
    (∀ (k : List Char) (v : PyVal) (es : List (List Char × PyVal)) (rest : List Char),
      pfuelEntries ((k, v) :: es) ≤ fuel →
      parseCore fuel ParseMode.mentries (dumpsEntries ((k, v) :: es) ++ '\x7d' :: rest) =
        some (ParseOut.oentries ((k, v) :: es) rest)) := by
  intro fuel
  induction fuel with
  | zero =>
    refine ⟨?_, ?_, ?_⟩
    · intro v rest hfl _
      have := one_le_pfuel v
      omega
    · intro x xs rest hfl
      rw [pfuelItems] at hfl
      omega
    · intro k v es rest hfl
      rw [pfuelEntries] at hfl
      omega
  | succ f ih =>
    obtain ⟨ihv, ihi, ihe⟩ := ih
    refine ⟨?_, ?_, ?_⟩
    · -- one value
      intro v rest hfl hhd
      rw [parseCore.eq_def]
      dsimp only
      cases v with
      | pyNone =>
        rw [show json_dumps PyVal.pyNone ++ rest = 'n' :: 'u' :: 'l' :: 'l' :: rest from
          by rw [json_dumps]; simp, scanValHead_null]
      | pyBool b =>
        cases b with
        | true =>
          rw [show json_dumps (PyVal.pyBool true) ++ rest = 't' :: 'r' :: 'u' :: 'e' :: rest
            from by rw [json_dumps]; simp, scanValHead_true]
        | false =>
          rw [show json_dumps (PyVal.pyBool false) ++ rest =
            'f' :: 'a' :: 'l' :: 's' :: 'e' :: rest from by rw [json_dumps]; simp,
            scanValHead_false]
      | pyInt n =>
        rw [show json_dumps (PyVal.pyInt n) ++ rest = intChars n ++ rest from
          by rw [json_dumps], scanValHead_intChars n rest hhd]
      | pyStr s =>
        rw [show json_dumps (PyVal.pyStr s) ++ rest =
          '"' :: (escapeStr s ++ '"' :: rest) from by rw [json_dumps]; simp,
          scanValHead_str]
      | pyList xs =>
        cases xs with
        | nil =>
          rw [show json_dumps (PyVal.pyList []) ++ rest = '[' :: ']' :: rest from
            by rw [json_dumps, dumpsItems]; simp]
          rw [show scanValHead ('[' :: ']' :: rest) =
            ValHead.atom (PyVal.pyList []) rest from rfl]
        | cons x xs =>
          rw [show json_dumps (PyVal.pyList (x :: xs)) ++ rest =
            '[' :: (dumpsItems (x :: xs) ++ ']' :: rest) from by rw [json_dumps]; simp,
            scanValHead_arr]
          dsimp only
          rw [ihi x xs rest (by rw [pfuel] at hfl; omega)]
      | pyDict es =>
        cases es with
        | nil =>
          rw [show json_dumps (PyVal.pyDict []) ++ rest = '\x7b' :: '\x7d' :: rest from
            by rw [json_dumps, dumpsEntries]; simp]
          rw [show scanValHead ('\x7b' :: '\x7d' :: rest) =
            ValHead.atom (PyVal.pyDict []) rest from rfl]
        | cons e es =>
          rw [show json_dumps (PyVal.pyDict (e :: es)) ++ rest =
            '\x7b' :: (dumpsEntries (e :: es) ++ '\x7d' :: rest) from
            by rw [json_dumps]; simp,
            show (e :: es) = ((e.1, e.2) :: es) from by simp,
            scanValHead_obj]
          dsimp only
          rw [ihe e.1 e.2 es rest (by
            rw [pfuel] at hfl
            simp only [Prod.mk.eta]
            omega)]
    · -- array elements
      intro x xs rest hfl
      rw [parseCore.eq_def]
      dsimp only
      cases xs with
      | nil =>
        rw [show dumpsItems [x] ++ ']' :: rest = json_dumps x ++ ']' :: rest from
          by rw [dumpsItems]]
        rw [ihv x (']' :: rest) (pfuelItems_bound x [] f hfl).1
          (headNotDigit_rbracket rest)]
        dsimp only
        rw [show scanArrSep (']' :: rest) = SepScan.close rest from rfl]
      | cons y ys =>
        rw [show dumpsItems (x :: y :: ys) ++ ']' :: rest =
          json_dumps x ++ (',' :: ' ' :: (dumpsItems (y :: ys) ++ ']' :: rest)) from
          by rw [dumpsItems]; simp]
        rw [ihv x _ (pfuelItems_bound x (y :: ys) f hfl).1 (headNotDigit_comma _)]
        dsimp only
        rw [show scanArrSep (',' :: ' ' :: (dumpsItems (y :: ys) ++ ']' :: rest)) =
          SepScan.sep (dumpsItems (y :: ys) ++ ']' :: rest) from rfl]
        dsimp only
        rw [ihi y ys rest (pfuelItems_bound x (y :: ys) f hfl).2]
    · -- object entries
      intro k v es rest hfl
      rw [parseCore.eq_def]
      dsimp only
      cases es with
      | nil =>
        rw [show dumpsEntries [(k, v)] ++ '\x7d' :: rest =
          '"' :: (escapeStr k ++ '"' :: (':' :: ' ' :: (json_dumps v ++ '\x7d' :: rest)))
          from by rw [dumpsEntries, dumpsEntry]; simp]
        dsimp only
        rw [if_pos rfl]
        rw [parseStringBody_escapeStr k _ _ (by
          have := length_le_length_escapeStr k
          simp only [List.length_append, List.length_cons]
          omega)]
        dsimp only
        rw [show scanColonSpace (':' :: ' ' :: (json_dumps v ++ '\x7d' :: rest)) =
          some (json_dumps v ++ '\x7d' :: rest) from rfl]
        dsimp only
        rw [ihv v _ (pfuelEntries_bound k v [] f hfl).1 (headNotDigit_rbrace rest)]
        dsimp only
        rw [show scanObjSep ('\x7d' :: rest) = SepScan.close rest from rfl]
      | cons e es' =>
        rw [show dumpsEntries ((k, v) :: e :: es') ++ '\x7d' :: rest =
          '"' :: (escapeStr k ++ '"' :: (':' :: ' ' ::
            (json_dumps v ++ (',' :: ' ' :: (dumpsEntries (e :: es') ++ '\x7d' :: rest)))))
          from by rw [dumpsEntries, dumpsEntry]; simp]
        dsimp only
        rw [if_pos rfl]
        rw [parseStringBody_escapeStr k _ _ (by
          have := length_le_length_escapeStr k
          simp only [List.length_append, List.length_cons]
          omega)]
        dsimp only
        rw [show scanColonSpace (':' :: ' ' ::
          (json_dumps v ++ (',' :: ' ' :: (dumpsEntries (e :: es') ++ '\x7d' :: rest)))) =
          some (json_dumps v ++ (',' :: ' ' :: (dumpsEntries (e :: es') ++ '\x7d' :: rest)))
          from rfl]
        dsimp only
        rw [ihv v _ (pfuelEntries_bound k v (e :: es') f hfl).1 (headNotDigit_comma _)]
        dsimp only
        rw [show scanObjSep (',' :: ' ' :: (dumpsEntries (e :: es') ++ '\x7d' :: rest)) =
          SepScan.sep (dumpsEntries (e :: es') ++ '\x7d' :: rest) from rfl]
        dsimp only
        rw [show (e :: es') = ((e.1, e.2) :: es') from by simp,
          ihe e.1 e.2 es' rest (by
            have h2 := (pfuelEntries_bound k v (e :: es') f hfl).2
            simpa using h2)]

theorem one_le_length_intChars (n : Int) : 1 ≤ (intChars n).length := by
  rw [intChars]
  split_ifs
  · simp
  · obtain ⟨c, cs, hc, _⟩ := natDigits_cons n.toNat
    rw [hc]
    simp

mutual

theorem pfuel_le_dumps : ∀ (v : PyVal), pfuel v ≤ (json_dumps v).length
  | PyVal.pyNone => by simp [pfuel, json_dumps]
  | PyVal.pyBool true => by simp [pfuel, json_dumps]
  | PyVal.pyBool false => by simp [pfuel, json_dumps]
  | PyVal.pyInt n => by
    have h1 : pfuel (PyVal.pyInt n) = 1 := by simp [pfuel]
    rw [h1, json_dumps]
    exact one_le_length_intChars n
  | PyVal.pyStr s => by
    have h1 : pfuel (PyVal.pyStr s) = 1 := by simp [pfuel]
    rw [h1, json_dumps]
    simp
  | PyVal.pyList [] => by rw [pfuel, json_dumps]; simp
  | PyVal.pyList (x :: xs) => by
    have h1 := pfuelItems_le_dumps (x :: xs)
    rw [pfuel, json_dumps]
    simp only [List.length_cons, List.length_append, List.length_singleton]
    omega
  | PyVal.pyDict [] => by rw [pfuel, json_dumps]; simp
  | PyVal.pyDict (e :: es) => by
    have h1 := pfuelEntries_le_dumps (e :: es)
    rw [pfuel, json_dumps]
    simp only [List.length_cons, List.length_append, List.length_singleton]
    omega

theorem pfuelItems_le_dumps : ∀ (xs : List PyVal),
    pfuelItems xs ≤ (dumpsItems xs).length + 1
  | [] => by rw [pfuelItems]; omega
  | [x] => by
    have h1 := pfuel_le_dumps x
    rw [pfuelItems, pfuelItems, dumpsItems]
    simp only [Nat.max_zero]
    omega
  | x :: y :: ys => by
    have h1 := pfuel_le_dumps x
    have h2 := pfuelItems_le_dumps (y :: ys)
    have hmax : Nat.max (pfuel x) (pfuelItems (y :: ys)) ≤
        pfuel x + pfuelItems (y :: ys) :=
      Nat.max_le.mpr ⟨Nat.le_add_right _ _, Nat.le_add_left _ _⟩
    rw [pfuelItems, dumpsItems]
    simp only [List.length_append, List.length_cons]
    omega

theorem pfuelEntries_le_dumps : ∀ (es : List (List Char × PyVal)),
    pfuelEntries es ≤ (dumpsEntries es).length + 1
  | [] => by rw [pfuelEntries]; omega
  | [(k, v)] => by
    have h1 := pfuel_le_dumps v
    rw [pfuelEntries, pfuelEntries, dumpsEntries, dumpsEntry]
    simp only [Nat.max_zero, List.length_cons, List.length_append]
    omega
  | (k, v) :: e :: es => by
    have h1 := pfuel_le_dumps v
    have h2 := pfuelEntries_le_dumps (e :: es)
    have hmax : Nat.max (pfuel v) (pfuelEntries (e :: es)) ≤
        pfuel v + pfuelEntries (e :: es) :=
      Nat.max_le.mpr ⟨Nat.le_add_right _ _, Nat.le_add_left _ _⟩
    rw [pfuelEntries, dumpsEntries, dumpsEntry]
    simp only [List.length_append, List.length_cons]
    omega

end

/-- Round trip of the serialization convention: parsing back `json.dumps v`
with `json.loads` recovers exactly `v`. -/
theorem json_loads_json_dumps (v : PyVal) : json_loads (json_dumps v) = some v := by
  have hb : pfuel v ≤ (json_dumps v).length + 1 :=
    le_trans (pfuel_le_dumps v) (Nat.le_succ _)
  have hp := (parseCore_dumps ((json_dumps v).length + 1)).1 v [] hb trivial
  rw [List.append_nil] at hp
  rw [json_loads, parseVal, hp]

/-! ## C6: normalization round trip -/

/-- C6.  For every cell value that is a nested list or mapping, the Record
Normalizer's per-cell conversion replaces the value with its `json.dumps`
serialization (a deterministic, parseable text encoding), and applying the
inverse of that convention (`json_loads`) to the stored text recovers the
original nested value exactly. -/
theorem c6_normalizer_roundtrip (v : PyVal) (h : isNested v = true) :
    convertCell v = PyVal.pyStr (json_dumps v) ∧
    json_loads (json_dumps v) = some v := by
  constructor
  · rw [convertCell, if_pos h]
  · exact json_loads_json_dumps v

/-- Witness for C6 at a concrete nested value (a dict holding a list of an
int, a string and `None`). -/
theorem c6_normalizer_roundtrip_witness :
    convertCell (PyVal.pyDict [(['a'],
        PyVal.pyList [PyVal.pyInt 1, PyVal.pyStr ['x'], PyVal.pyNone])]) =
      PyVal.pyStr (json_dumps (PyVal.pyDict [(['a'],
        PyVal.pyList [PyVal.pyInt 1, PyVal.pyStr ['x'], PyVal.pyNone])])) ∧
    json_loads (json_dumps (PyVal.pyDict [(['a'],
        PyVal.pyList [PyVal.pyInt 1, PyVal.pyStr ['x'], PyVal.pyNone])])) =
      some (PyVal.pyDict [(['a'],
        PyVal.pyList [PyVal.pyInt 1, PyVal.pyStr ['x'], PyVal.pyNone])]) :=
  c6_normalizer_roundtrip _ (by decide)

/-! ## C10: `process_nested_dicts` touches only nested-structure cells -/

/-- C10.  `process_nested_dicts` preserves the number and names of columns
and the length (row count) of every column; a column without any dict/list
cell is returned completely unchanged; and inside a converted column every
cell that is not a dict/list keeps its exact value — only the
nested-structure cells are replaced (by their serialization, see C6). -/
theorem c10_process_nested_dicts_frame (df : List (List Char × List PyVal)) :
    (process_nested_dicts df).length = df.length ∧
    (∀ i : Nat, ((process_nested_dicts df)[i]?).map Prod.fst =
      (df[i]?).map Prod.fst) ∧
    (∀ i : Nat, ((process_nested_dicts df)[i]?).map (fun col => col.2.length) =
      (df[i]?).map (fun col => col.2.length)) ∧
    (∀ (i : Nat) (col : List Char × List PyVal), df[i]? = some col →
      col.2.any isNested = false → (process_nested_dicts df)[i]? = some col) ∧
    (∀ (i j : Nat) (col : List Char × List PyVal) (v : PyVal),
      df[i]? = some col → col.2[j]? = some v → isNested v = false →
      ((process_nested_dicts df)[i]?).map (fun col2 => col2.2[j]?) =
        some (some v)) := by
  refine ⟨by simp [process_nested_dicts], ?_, ?_, ?_, ?_⟩
  · intro i
    rw [process_nested_dicts, List.getElem?_map]
    cases df[i]? with
    | none => rfl
    | some col =>
      by_cases h : col.2.any isNested = true
      · simp only [Option.map_some']
        rw [if_pos h]
      · simp only [Option.map_some']
        rw [if_neg h]
  · intro i
    rw [process_nested_dicts, List.getElem?_map]
    cases df[i]? with
    | none => rfl
    | some col =>
      by_cases h : col.2.any isNested = true
      · simp only [Option.map_some']
        rw [if_pos h]
        simp
      · simp only [Option.map_some']
        rw [if_neg h]
  · intro i col hcol hno
    rw [process_nested_dicts, List.getElem?_map, hcol]
    have h' : ¬ (col.2.any isNested = true) := by
      rw [hno]
      simp
    simp only [Option.map_some']
    rw [if_neg h']
  · intro i j col v hcol hcell hv
    rw [process_nested_dicts, List.getElem?_map, hcol]
    by_cases h : col.2.any isNested = true
    · simp only [Option.map_some']
      rw [if_pos h]
      simp only [Option.map_some']
      rw [List.getElem?_map, hcell]
      simp only [Option.map_some']
      rw [convertCell, if_neg (by rw [hv]; simp)]
    · simp only [Option.map_some']
      rw [if_neg h, hcell]

/-- Witness for C10: a two-column frame whose first column holds a nested
list and a scalar, and whose second column is all-scalar. -/
theorem c10_process_nested_dicts_frame_witness :
    (process_nested_dicts [(['a'], [PyVal.pyList [], PyVal.pyInt 2]),
        (['b'], [PyVal.pyInt 3, PyVal.pyInt 4])])[1]? =
      some (['b'], [PyVal.pyInt 3, PyVal.pyInt 4]) ∧
    ((process_nested_dicts [(['a'], [PyVal.pyList [], PyVal.pyInt 2]),
        (['b'], [PyVal.pyInt 3, PyVal.pyInt 4])])[0]?).map
      (fun col2 => col2.2[1]?) = some (some (PyVal.pyInt 2)) :=
  ⟨(c10_process_nested_dicts_frame _).2.2.2.1 1 (['b'], [PyVal.pyInt 3, PyVal.pyInt 4])
      rfl (by decide),
   (c10_process_nested_dicts_frame _).2.2.2.2 0 1 (['a'], [PyVal.pyList [], PyVal.pyInt 2])
      (PyVal.pyInt 2) rfl rfl (by decide)⟩
